import Mathlib

/-!
Shallow embedding of the absfs/permfs permission-enforcement kernel.

Sources embedded (Go): types.go (operations, effects, subjects, identities,
ACL entries), pattern.go (matchPattern / matchSegments / PatternMatcher,
together with the Go standard library functions path.Match and path.Clean
that pattern.go invokes), evaluator.go and the cached evaluator
(Evaluate / evaluateUncached), cache.go (PermissionCache), validation.go
(validatePathPattern), the context helpers (GetIdentity / GetMetadata /
GetRequestID), the audit logger (AuditLogger.Log and its metrics), and the
PermFS facade (checkPermission, the filesystem operations, AddRule,
RemoveRule, ClearCache, New).

Modelling conventions:
- Go strings are Lean `String`; character-level algorithms work on
  `List Char` (one `Char` per rune; the repository only ever matches
  byte-per-rune text, where Go's byte indexing and rune decoding agree).
- Go `int` / `uint32` bit fields are `Nat` with `&&&` / `|||`; priorities
  are `Int` (Go `int`, may be negative).
- Go `(T, error)` results are `Except GoError T` or `T × Option GoError`.
- `time.Time` / `time.Duration` are `Nat` instants passed explicitly
  (`now`), so TTL arithmetic is explicit state.
- `map[string]interface{}` request metadata is modelled as association
  lists of string keys to string values (the only value shape the embedded
  code ever reads back is `string`, via the `source_ip` type assertion).
- Side effects (audit emission, metric counters, cache mutation, backend
  delegation) are made explicit: functions return the updated state plus
  trace fields (emitted events, performed evaluations, backend invocation).
-/

/-- Errors of the embedded code: path.ErrBadPattern from the Go standard
library, and the permfs sentinel errors. -/
inductive GoError where
  | badPattern
  | invalidPattern
  | noIdentity
  | permissionDenied (path : String) (operation : Nat) (userID : String) (reason : String)
  deriving DecidableEq

/-! ## types.go: operations, effects, subjects, identities -/

/-- Operation bit-field values from types.go (1 << iota). -/
def OperationRead : Nat := 1

def OperationWrite : Nat := 2

def OperationExecute : Nat := 4

def OperationDelete : Nat := 8

def OperationMetadata : Nat := 16

def OperationAdmin : Nat := 32

def OperationAll : Nat :=
  OperationRead ||| OperationWrite ||| OperationExecute ||| OperationDelete |||
    OperationMetadata ||| OperationAdmin

/-- Operation.Has: o&op == op. -/
def opHas (o op : Nat) : Bool := o &&& op == op

/-- Operation.String from types.go. -/
def opString (o : Nat) : String :=
  if o == OperationAll then "All"
  else
    let ops : List String :=
      (if o &&& OperationRead != 0 then ["Read"] else []) ++
      (if o &&& OperationWrite != 0 then ["Write"] else []) ++
      (if o &&& OperationExecute != 0 then ["Execute"] else []) ++
      (if o &&& OperationDelete != 0 then ["Delete"] else []) ++
      (if o &&& OperationMetadata != 0 then ["Metadata"] else []) ++
      (if o &&& OperationAdmin != 0 then ["Admin"] else [])
    if ops.isEmpty then "None" else String.intercalate "|" ops

/-- Effect from types.go (EffectDeny = 0, EffectAllow = 1). -/
inductive Effect where
  | deny
  | allow
  deriving DecidableEq

/-- SubjectType from types.go. -/
inductive SubjectType where
  | user
  | group
  | role
  | everyone
  deriving DecidableEq

/-- Subject from types.go. -/
structure Subject where
  type : SubjectType
  id : String
  deriving DecidableEq

def Subject.User (id : String) : Subject := ⟨SubjectType.user, id⟩

def Subject.Group (id : String) : Subject := ⟨SubjectType.group, id⟩

def Subject.Role (id : String) : Subject := ⟨SubjectType.role, id⟩

def Subject.Everyone : Subject := ⟨SubjectType.everyone, "*"⟩

/-- Identity from types.go. -/
structure Identity where
  userID : String
  groups : List String
  roles : List String
  metadata : List (String × String)

/-- Identity.HasGroup. -/
def Identity.HasGroup (i : Identity) (g : String) : Bool :=
  i.groups.any (fun x => x == g)

/-- Identity.HasRole. -/
def Identity.HasRole (i : Identity) (r : String) : Bool :=
  i.roles.any (fun x => x == r)

/-- Identity.Matches from types.go: does the identity match the subject? -/
def Identity.MatchesSubject (i : Identity) (s : Subject) : Bool :=
  match s.type with
  | SubjectType.user => i.userID == s.id
  | SubjectType.group => i.HasGroup s.id
  | SubjectType.role => i.HasRole s.id
  | SubjectType.everyone => true

/-- EvaluationContext from types.go.  The Go field Identity is a pointer;
every caller embedded here builds the context from a non-nil identity
(checkPermission aborts earlier with NoIdentity), so the field is modelled
as a plain value. -/
structure EvaluationContext where
  identity : Identity
  path : String
  operation : Nat
  metadata : List (String × String)

/-- Condition (types.go interface): a pure predicate on the context.  The
concrete condition variants of conditions.go (time / IP / metadata /
function / combinators) are all instances of this shape and none of the
embedded claims depends on a particular variant. -/
abbrev Condition := EvaluationContext → Bool

/-- ACLEntry from types.go. -/
structure ACLEntry where
  subject : Subject
  pathPattern : String
  permissions : Nat
  effect : Effect
  priority : Int
  conditions : List Condition

/-- ACL from types.go. -/
structure ACL where
  entries : List ACLEntry
  default : Effect

/-! ## Go standard library path.Match (path/match.go), invoked per segment
by pattern.go.  Faithful rune-level transcription of scanChunk, getEsc,
matchChunk and Match. -/

/-- scanChunk's leading-star stripping: returns (sawStar, remainder). -/
def stripStars : List Char → Bool × List Char
  | [] => (false, [])
  | c :: r => if c == '*' then (true, (stripStars r).2) else (false, c :: r)

/-- scanChunk's scan loop: splits off the chunk up to (not including) the
next top-level star; backslash skips the next character, brackets toggle
the in-range flag.  Returns (chunk, rest). -/
def scanBody (inrange : Bool) : List Char → List Char × List Char
  | [] => ([], [])
  | c :: r =>
    if c == '\\' then
      match r with
      | [] => ([c], [])
      | d :: r' =>
        let p := scanBody inrange r'
        (c :: d :: p.1, p.2)
    else if c == '[' then
      let p := scanBody true r
      (c :: p.1, p.2)
    else if c == ']' then
      let p := scanBody false r
      (c :: p.1, p.2)
    else if c == '*' && !inrange then ([], c :: r)
    else
      let p := scanBody inrange r
      (c :: p.1, p.2)

/-- scanChunk from path/match.go: (star, chunk, rest). -/
def scanChunk (pattern : List Char) : Bool × List Char × List Char :=
  let s := stripStars pattern
  let p := scanBody false s.2
  (s.1, p.1, p.2)

/-- getEsc from path/match.go: parse one (possibly escaped) character of a
character class; errors on an empty chunk, a leading dash or closing
bracket, a dangling backslash, or a class element that ends the chunk. -/
def getEsc : List Char → Except GoError (Char × List Char)
  | [] => .error .badPattern
  | c :: r =>
    if c == '-' || c == ']' then .error .badPattern
    else if c == '\\' then
      match r with
      | [] => .error .badPattern
      | d :: r' => if r'.isEmpty then .error .badPattern else .ok (d, r')
    else if r.isEmpty then .error .badPattern else .ok (c, r)

theorem getEsc_length {l : List Char} {c : Char} {r : List Char}
    (h : getEsc l = .ok (c, r)) : r.length < l.length := by
  match l with
  | [] => simp [getEsc] at h
  | a :: t =>
    simp only [getEsc] at h
    split at h
    · exact absurd h (by simp)
    · split at h
      · match t with
        | [] => simp at h
        | d :: t' =>
          simp only at h
          split at h
          · exact absurd h (by simp)
          · simp only [Except.ok.injEq, Prod.mk.injEq] at h
            simp [← h.2]
            omega
      · split at h
        · exact absurd h (by simp)
        · simp only [Except.ok.injEq, Prod.mk.injEq] at h
          simp [← h.2]

/-- The range-parsing loop of matchChunk's character-class case: `rc` is
the rune being tested, `matched`/`nrange` accumulate the loop state.
Returns (match, chunk after the closing bracket).  getEsc guarantees a
non-empty remainder, so the dash test reads the head as Go indexes
chunk[0]. -/
def matchRanges (rc : Char) (chunk : List Char) (matched : Bool) (nrange : Nat) :
    Except GoError (Bool × List Char) :=
  if !chunk.isEmpty && chunk.headD (Char.ofNat 0) == ']' && 0 < nrange then
    .ok (matched, chunk.tail)
  else
    match hlo : getEsc chunk with
    | .error e => .error e
    | .ok (lo, ch1) =>
      if ch1.headD (Char.ofNat 0) == '-' then
        match hhi : getEsc ch1.tail with
        | .error e => .error e
        | .ok (hi, ch3) =>
          matchRanges rc ch3 (matched || (lo ≤ rc && rc ≤ hi)) (nrange + 1)
      else
        matchRanges rc ch1 (matched || (lo ≤ rc && rc ≤ lo)) (nrange + 1)
termination_by chunk.length
decreasing_by
  · have a1 := getEsc_length hlo
    have a2 := getEsc_length hhi
    have a3 : ch1.tail.length ≤ ch1.length := by
      cases ch1 <;> simp
    omega
  · exact getEsc_length hlo

theorem matchRanges_length {rc : Char} {ck : List Char} {m : Bool} {nr : Nat}
    {b : Bool} {rest : List Char} (h : matchRanges rc ck m nr = .ok (b, rest)) :
    rest.length < ck.length := by
  induction ck, m, nr using matchRanges.induct rc with
  | case1 ck m nr hc =>
    rw [matchRanges, if_pos hc] at h
    simp only [Except.ok.injEq, Prod.mk.injEq] at h
    rw [← h.2]
    rcases ck with _ | ⟨c, t⟩
    · simp at hc
    · simp
  | case2 ck m nr hc e hlo =>
    rw [matchRanges, if_neg hc, hlo] at h
    exact absurd h (by simp)
  | case3 ck m nr hc lo ch1 hlo hd e hhi =>
    rw [matchRanges, if_neg hc, hlo] at h
    dsimp only at h
    rw [if_pos hd, hhi] at h
    dsimp only at h
    exact absurd h (by simp)
  | case4 ck m nr hc lo ch1 hlo hd hi ch3 hhi ih =>
    rw [matchRanges, if_neg hc, hlo] at h
    dsimp only at h
    rw [if_pos hd, hhi] at h
    dsimp only at h
    have hlt := ih h
    have a1 := getEsc_length hlo
    have a2 := getEsc_length hhi
    have a3 : ch1.tail.length ≤ ch1.length := by
      cases ch1 <;> simp
    omega
  | case5 ck m nr hc lo ch1 hlo hd ih =>
    rw [matchRanges, if_neg hc, hlo] at h
    dsimp only at h
    rw [if_neg hd] at h
    have hlt := ih h
    have a1 := getEsc_length hlo
    omega

/-- matchChunk from path/match.go: match a chunk against the head of `s`,
threading the `failed` flag (a failed match keeps parsing the chunk so
syntax errors are still detected).  Returns (rest of s, ok).  Whenever the
code below reads `s.headD`/`s.tail` the flag is false, which guarantees
`s` is non-empty exactly as Go's byte indexing assumes. -/
def matchChunk (chunk s : List Char) (failed : Bool) :
    Except GoError (List Char × Bool) :=
  match chunk with
  | [] => if failed then .ok ([], false) else .ok (s, true)
  | c :: ch =>
    let failed1 := failed || s.isEmpty
    if c == '[' then
      let r : Char := if failed1 then Char.ofNat 0 else s.headD (Char.ofNat 0)
      let s1 : List Char := if failed1 then s else s.tail
      let negated : Bool := !ch.isEmpty && ch.headD (Char.ofNat 0) == '^'
      let chc : List Char := if negated then ch.tail else ch
      match hmr : matchRanges r chc false 0 with
      | .error e => .error e
      | .ok (m, rest) => matchChunk rest s1 (failed1 || (m == negated))
    else if c == '?' then
      if failed1 then matchChunk ch s failed1
      else matchChunk ch s.tail (failed1 || (s.headD (Char.ofNat 0) == '/'))
    else if c == '\\' then
      match ch with
      | [] => .error .badPattern
      | d :: ch2 =>
        if failed1 then matchChunk ch2 s failed1
        else matchChunk ch2 s.tail (failed1 || !(d == s.headD (Char.ofNat 0)))
    else
      if failed1 then matchChunk ch s failed1
      else matchChunk ch s.tail (failed1 || !(c == s.headD (Char.ofNat 0)))
termination_by chunk.length
decreasing_by
  all_goals simp only [List.length_cons]
  all_goals try omega
  all_goals rename_i cc chh
  have a1 := matchRanges_length hmr
  have a2 : chc.length ≤ cc.length := by
    unfold_let chc
    split
    · cases cc <;> simp
    · simp
  omega

/-- Unfolding lemma for matchRanges with plain (non-dependent) matches,
for rewriting-based evaluation. -/
theorem matchRanges_eq (rc : Char) (chunk : List Char) (matched : Bool) (nrange : Nat) :
    matchRanges rc chunk matched nrange =
      if !chunk.isEmpty && chunk.headD (Char.ofNat 0) == ']' && 0 < nrange then
        .ok (matched, chunk.tail)
      else
        match getEsc chunk with
        | .error e => .error e
        | .ok (lo, ch1) =>
          if ch1.headD (Char.ofNat 0) == '-' then
            match getEsc ch1.tail with
            | .error e => .error e
            | .ok (hi, ch3) =>
              matchRanges rc ch3 (matched || (lo ≤ rc && rc ≤ hi)) (nrange + 1)
          else matchRanges rc ch1 (matched || (lo ≤ rc && rc ≤ lo)) (nrange + 1) := by
  rw [matchRanges]
  by_cases hc : (!chunk.isEmpty && chunk.headD (Char.ofNat 0) == ']' &&
      decide (0 < nrange)) = true
  · rw [if_pos hc, if_pos hc]
  · rw [if_neg hc, if_neg hc]
    rcases h1 : getEsc chunk with e | ⟨lo, ch1⟩
    · rfl
    · dsimp only
      by_cases hd : (ch1.headD (Char.ofNat 0) == '-') = true
      · rw [if_pos hd, if_pos hd]
        rcases h2 : getEsc ch1.tail with e | ⟨hi, ch3⟩
        · rfl
        · rfl
      · rw [if_neg hd, if_neg hd]

/-- Unfolding lemma for matchChunk with plain matches, for rewriting-based
evaluation. -/
theorem matchChunk_eq (chunk s : List Char) (failed : Bool) :
    matchChunk chunk s failed =
      match chunk with
      | [] => if failed then .ok ([], false) else .ok (s, true)
      | c :: ch =>
        let failed1 := failed || s.isEmpty
        if c == '[' then
          let r : Char := if failed1 then Char.ofNat 0 else s.headD (Char.ofNat 0)
          let s1 : List Char := if failed1 then s else s.tail
          let negated : Bool := !ch.isEmpty && ch.headD (Char.ofNat 0) == '^'
          let chc : List Char := if negated then ch.tail else ch
          match matchRanges r chc false 0 with
          | .error e => .error e
          | .ok (m, rest) => matchChunk rest s1 (failed1 || (m == negated))
        else if c == '?' then
          if failed1 then matchChunk ch s failed1
          else matchChunk ch s.tail (failed1 || (s.headD (Char.ofNat 0) == '/'))
        else if c == '\\' then
          match ch with
          | [] => .error .badPattern
          | d :: ch2 =>
            if failed1 then matchChunk ch2 s failed1
            else matchChunk ch2 s.tail (failed1 || !(d == s.headD (Char.ofNat 0)))
        else
          if failed1 then matchChunk ch s failed1
          else matchChunk ch s.tail (failed1 || !(c == s.headD (Char.ofNat 0))) := by
  rw [matchChunk.eq_def]
  cases chunk with
  | nil => rfl
  | cons c ch =>
    dsimp only
    by_cases h1 : (c == '[') = true
    · rw [if_pos h1, if_pos h1]
      rcases h2 : matchRanges (if (failed || s.isEmpty) = true then Char.ofNat 0
          else s.headD (Char.ofNat 0))
          (if (!ch.isEmpty && ch.headD (Char.ofNat 0) == '^') = true then ch.tail else ch)
          false 0 with e | ⟨m, rest⟩
      · rfl
      · rfl
    · rw [if_neg h1, if_neg h1]
      try rfl

theorem scanBody_append (b : Bool) (l : List Char) :
    (scanBody b l).1 ++ (scanBody b l).2 = l := by
  induction b, l using scanBody.induct <;> rw [scanBody.eq_def] <;> try simp_all
  all_goals rename_i c r _ _ _ _ _
  all_goals by_cases hc : c = '*' <;> simp_all

theorem scanBody_length (b : Bool) (l : List Char) :
    (scanBody b l).1.length + (scanBody b l).2.length = l.length := by
  have h := congrArg List.length (scanBody_append b l)
  simpa using h

theorem scanBody_fst_ne_nil {c : Char} (r : List Char) (hc : ¬(c == '*') = true) :
    (scanBody false (c :: r)).1 ≠ [] := by
  have h4 : ¬c = '*' := by simpa using hc
  rw [scanBody.eq_def]
  dsimp only
  by_cases h1 : c = '\\'
  · subst h1
    cases r <;> simp
  · by_cases h2 : c = '['
    · simp [h1, h2]
    · by_cases h3 : c = ']'
      · simp [h1, h2, h3]
      · simp [h1, h2, h3, h4]

theorem stripStars_snd_le (l : List Char) : (stripStars l).2.length ≤ l.length := by
  induction l with
  | nil => simp [stripStars]
  | cons c r ih =>
    by_cases hc : c = '*' <;> simp [stripStars, hc] <;> omega

theorem stripStars_of_star {l : List Char} (h : (stripStars l).1 = true) :
    (stripStars l).2.length < l.length := by
  match l with
  | [] => simp [stripStars] at h
  | c :: r =>
    by_cases hc : c = '*'
    · have := stripStars_snd_le r
      simp [stripStars, hc]
      omega
    · simp [stripStars, hc] at h

theorem stripStars_of_not_star {l : List Char} (h : (stripStars l).1 = false) :
    (stripStars l).2 = l := by
  match l with
  | [] => simp [stripStars]
  | c :: r =>
    by_cases hc : c = '*'
    · simp [stripStars, hc] at h
    · simp [stripStars, hc]

/-- The rest returned by scanChunk is strictly shorter than the pattern
whenever the pattern is non-empty. -/
theorem scanChunk_rest_lt {pattern : List Char} (h : pattern ≠ []) :
    (scanChunk pattern).2.2.length < pattern.length := by
  unfold scanChunk
  cases hs : (stripStars pattern).1 with
  | true =>
    have h1 := stripStars_of_star hs
    have h2 := scanBody_length false (stripStars pattern).2
    simp only []
    omega
  | false =>
    have h1 := stripStars_of_not_star hs
    match hpat : pattern, h with
    | c :: r, _ =>
      have hcs : ¬(c == '*') = true := by
        intro hcc
        simp [stripStars, show c = '*' by simpa using hcc] at hs
      simp only [h1]
      have h2 := scanBody_fst_ne_nil r hcs
      have h4 := scanBody_length false (c :: r)
      have h5 : 0 < (scanBody false (c :: r)).1.length :=
        List.length_pos.mpr h2
      simp only [List.length_cons] at h4 ⊢
      omega

/-- The tail loop of path.Match: after a definitive non-match, scan the rest
of the pattern chunk-by-chunk so syntax errors still surface. -/
def validateRest (pattern : List Char) : Except GoError Bool :=
  match pattern with
  | [] => .ok false
  | p :: pr =>
    let sc := scanChunk (p :: pr)
    match matchChunk sc.2.1 [] false with
    | .error e => .error e
    | .ok _ => validateRest sc.2.2
termination_by pattern.length
decreasing_by exact scanChunk_rest_lt (by simp)

/-- The star inner loop of path.Match: skip one leading rune of the name at
a time (never across a slash) and retry the chunk; `f` continues the outer
loop on the rest of the pattern, `fallback` is the after-loop action. -/
def starTrials (f : List Char → Except GoError Bool) (chunk : List Char)
    (restEmpty : Bool) (fallback : Except GoError Bool) :
    List Char → Except GoError Bool
  | [] => fallback
  | c :: name' =>
    if c == '/' then fallback
    else
      match matchChunk chunk name' false with
      | .ok (t, true) =>
        if restEmpty && !t.isEmpty then starTrials f chunk restEmpty fallback name'
        else f t
      | .ok (_, false) => starTrials f chunk restEmpty fallback name'
      | .error e => .error e

/-- Match from path/match.go (Go standard library), the per-segment glob
matcher used by pattern.go: `*` within a segment, `?`, character classes,
backslash escapes.  Name chosen to avoid clashing with Lean's Match. -/
def goMatch (pattern name : List Char) : Except GoError Bool :=
  match pattern with
  | [] => .ok name.isEmpty
  | p :: pr =>
    let sc := scanChunk (p :: pr)
    if sc.1 && sc.2.1.isEmpty then .ok (!name.contains '/')
    else
      match matchChunk sc.2.1 name false with
      | .error e => .error e
      | .ok (t, okf) =>
        if okf && (t.isEmpty || !sc.2.2.isEmpty) then goMatch sc.2.2 t
        else if sc.1 then
          starTrials (fun nm => goMatch sc.2.2 nm) sc.2.1 sc.2.2.isEmpty
            (validateRest sc.2.2) name
        else validateRest sc.2.2
termination_by pattern.length
decreasing_by
  all_goals exact scanChunk_rest_lt (by simp)

/-! ## pattern.go: matchPattern / matchSegments / PatternMatcher, plus the
Go standard library path.Clean they rely on. -/

/-- strings.Split(s, "/"): split on slashes keeping empty fields. -/
def splitSlash : List Char → List (List Char)
  | [] => [[]]
  | c :: r =>
    if c == '/' then [] :: splitSlash r
    else
      match splitSlash r with
      | [] => [[c]]
      | s :: ss => (c :: s) :: ss

/-- strings.Contains(haystack, needle). -/
def hasSubstring (needle : List Char) : List Char → Bool
  | [] => needle.isEmpty
  | c :: r => needle.isPrefixOf (c :: r) || hasSubstring needle r

def doubleStar : List Char := ['*', '*']

/-- The one-or-more loop of matchSegments' `**` case: try the remaining
pattern against every proper suffix of the path segments. -/
def segScan (f : List (List Char) → Except GoError Bool) :
    List (List Char) → Except GoError Bool
  | [] => .ok false
  | _ :: rest =>
    match f rest with
    | .error e => .error e
    | .ok true => .ok true
    | .ok false => segScan f rest

/-- matchSegments from pattern.go: segment-wise matching with backtracking
for `**`; non-star segments go through path.Match, whose errors become
ErrInvalidPattern. -/
def matchSegments : List (List Char) → List (List Char) → Except GoError Bool
  | [], qq => .ok qq.isEmpty
  | p :: pp, qq =>
    match qq with
    | [] => .ok ((p :: pp).all (fun seg => seg == doubleStar))
    | q :: qq' =>
      if p == doubleStar then
        match matchSegments pp (q :: qq') with
        | .error e => .error e
        | .ok true => .ok true
        | .ok false => segScan (fun l => matchSegments pp l) (q :: qq')
      else
        match goMatch p q with
        | .error _ => .error .invalidPattern
        | .ok false => .ok false
        | .ok true => matchSegments pp qq'

/-- matchDoubleStarPattern from pattern.go. -/
def matchDoubleStarPattern (pattern path : String) : Except GoError Bool :=
  matchSegments (splitSlash pattern.toList) (splitSlash path.toList)

/-- The backtracking loop of path.Clean's `..` case: the buffer is stored
reversed; `dropped` is the character most recently popped, and popping
continues while the write position exceeds `dotdot` and the popped
character is not a slash. -/
def popWhile (dotdot : Nat) (dropped : Char) : List Char → List Char
  | [] => []
  | h :: t =>
    if dotdot < (h :: t).length && !(dropped == '/') then popWhile dotdot h t
    else h :: t

/-- The main loop of path.Clean (Go standard library path/path.go), on the
unread input, the output buffer stored in reverse, and the dotdot mark. -/
def cleanLoop (rooted : Bool) : List Char → List Char → Nat → List Char
  | [], out, _ => out
  | c :: r, out, dotdot =>
    if c == '/' then
      cleanLoop rooted r out dotdot
    else if c == '.' && (r.isEmpty || r.headD (Char.ofNat 0) == '/') then
      cleanLoop rooted r out dotdot
    else if c == '.' && r.headD (Char.ofNat 0) == '.' &&
        (r.tail.isEmpty || r.tail.headD (Char.ofNat 0) == '/') then
      if dotdot < out.length then
        match out with
        | [] => cleanLoop rooted r.tail out dotdot
        | h :: t => cleanLoop rooted r.tail (popWhile dotdot h t) dotdot
      else if !rooted then
        let out2 : List Char := '.' :: '.' :: (if out.isEmpty then out else '/' :: out)
        cleanLoop rooted r.tail out2 out2.length
      else cleanLoop rooted r.tail out dotdot
    else
      let keep := (c :: r).takeWhile (fun d => !(d == '/'))
      let out2 := keep.reverse ++
        (if (rooted && out.length != 1) || (!rooted && out.length != 0)
          then '/' :: out else out)
      cleanLoop rooted ((c :: r).dropWhile (fun d => !(d == '/'))) out2 dotdot
termination_by l => l.length
decreasing_by
  all_goals simp_all
  all_goals try omega
  all_goals try (cases r <;> simp <;> omega)
  · have hs := List.Sublist.length_le (List.dropWhile_sublist (l := r)
      (p := fun d => !(d == '/')))
    omega

/-- path.Clean from the Go standard library (forward-slash form; on this
platform filepath.Clean and filepath.ToSlash coincide with path.Clean and
the identity). -/
def pathClean (s : String) : String :=
  match s.toList with
  | [] => "."
  | c :: r =>
    let rooted := c == '/'
    let res :=
      if rooted then cleanLoop true r ['/'] 1
      else cleanLoop false (c :: r) [] 0
    if res.isEmpty then "." else String.mk res.reverse

/-- matchPattern from pattern.go: normalize both strings (filepath.Clean
then path.Clean; ToSlash is the identity here), short-circuit on equality,
dispatch `**` patterns to the segment matcher, otherwise use path.Match
with errors mapped to ErrInvalidPattern. -/
def matchPattern (pattern path : String) : Except GoError Bool :=
  let pattern := pathClean (pathClean pattern)
  let path := pathClean (pathClean path)
  if pattern == path then .ok true
  else if hasSubstring doubleStar pattern.toList then
    matchDoubleStarPattern pattern path
  else
    match goMatch pattern.toList path.toList with
    | .error _ => .error .invalidPattern
    | .ok m => .ok m

/-- PatternMatcher from pattern.go. -/
structure PatternMatcher where
  pattern : String
  hasGlob : Bool
  deriving DecidableEq

/-- NewPatternMatcher from pattern.go: normalizes the pattern and records
whether it contains a glob character.  It never returns an error. -/
def NewPatternMatcher (pattern : String) : Except GoError PatternMatcher :=
  let p := pathClean (pathClean pattern)
  .ok ⟨p, p.toList.any (fun c => c == '*' || c == '?')⟩

/-- validatePathPattern from validation.go; the error is modelled by its
message string (None = valid). -/
def validatePathPattern (pattern : String) : Option String :=
  if pattern == "" then some "pattern cannot be empty"
  else
    match NewPatternMatcher pattern with
    | .error _ => some "invalid path pattern"
    | .ok _ =>
      if hasSubstring ['*', '*', '*'] pattern.toList then
        some "invalid pattern: *** is not supported, use **"
      else none

/-! ## types.go entry methods and evaluator.go -/

instance : Inhabited ACLEntry :=
  ⟨⟨Subject.Everyone, "", 0, Effect.deny, 0, []⟩⟩

/-- ACLEntry.Matches from types.go: subject match, then pattern match with
errors treated as non-matching, then all conditions. -/
def ACLEntry.Matches (e : ACLEntry) (ctx : EvaluationContext) : Bool :=
  if !(ctx.identity.MatchesSubject e.subject) then false
  else
    match matchPattern e.pathPattern ctx.path with
    | .error _ => false
    | .ok matched =>
      if !matched then false
      else e.conditions.all (fun cond => cond ctx)

/-- ACLEntry.Applies from types.go. -/
def ACLEntry.Applies (e : ACLEntry) (op : Nat) : Bool :=
  opHas e.permissions op

/-- The sort.Slice call of evaluateUncached (higher priority first).
sort.Slice is an unspecified (unstable) comparison sort; insertion sort is
one admissible implementation, and the decision characterization below
depends only on sortedness plus being a permutation, never on which
same-priority order the sort happens to produce. -/
def sortByPriorityDesc (l : List ACLEntry) : List ACLEntry :=
  l.insertionSort (fun a b => b.priority ≤ a.priority)

/-- The first two passes of evaluateUncached: scan entries of the given
effect within the highest-priority band (the sorted prefix with priority
not below `hp`), stopping at the first lower-priority entry. -/
def scanTopBand (hp : Int) (eff : Effect) : List ACLEntry → Bool
  | [] => false
  | e :: rest =>
    if e.priority < hp then false
    else if e.effect == eff then true
    else scanTopBand hp eff rest

/-- The defensive third pass of evaluateUncached: first explicit effect in
the whole sorted list. -/
def scanAllLevels : List ACLEntry → Option Bool
  | [] => none
  | e :: rest =>
    if e.effect == Effect.deny then some false
    else if e.effect == Effect.allow then some true
    else scanAllLevels rest

/-- evaluateUncached from the cached evaluator (identical to Evaluate of
evaluator.go): filter matching entries, default on empty, sort by priority
descending, deny scan then allow scan in the top band, then the defensive
fallback.  The error component is part of the Go signature; every return
site passes nil. -/
def evaluateUncached (acl : ACL) (ctx : EvaluationContext) : Bool × Option GoError :=
  let matchingEntries := acl.entries.filter
    (fun entry => entry.Matches ctx && entry.Applies ctx.operation)
  if matchingEntries.isEmpty then (acl.default == Effect.allow, none)
  else
    let sorted := sortByPriorityDesc matchingEntries
    let highestPriority := (sorted.headD default).priority
    if scanTopBand highestPriority Effect.deny sorted then (false, none)
    else if scanTopBand highestPriority Effect.allow sorted then (true, none)
    else
      match scanAllLevels sorted with
      | some b => (b, none)
      | none => (false, none)

/-! ## cache.go: PermissionCache -/

/-- CacheKey from cache.go. -/
structure CacheKey where
  userID : String
  path : String
  operation : Nat
  deriving DecidableEq

/-- CacheKey.String: "user:path:op" (fmt %d renders the operation). -/
def CacheKey.keyString (k : CacheKey) : String :=
  k.userID ++ ":" ++ k.path ++ ":" ++ Nat.repr k.operation

/-- CacheEntry from cache.go (the lruList element is implicit in the list
position below). -/
structure CacheEntry where
  key : CacheKey
  allowed : Bool
  expiresAt : Nat
  deriving DecidableEq

/-- PermissionCache from cache.go.  The Go map plus doubly-linked lruList
are modelled by one list in MRU-to-LRU order; the map is its keyString
index (the code keeps them consistent, so the list determines both). -/
structure PermissionCache where
  maxSize : Int
  ttl : Nat
  lru : List CacheEntry
  hits : Nat
  misses : Nat
  evictions : Nat
  enabled : Bool

/-- NewPermissionCache from cache.go. -/
def NewPermissionCache (maxSize : Int) (ttl : Nat) : PermissionCache :=
  ⟨maxSize, ttl, [], 0, 0, 0, true⟩

/-- PermissionCache.Get: (allowed, found, updated cache).  Expired entries
are removed and count as a miss; hits move the entry to the front. -/
def PermissionCache.get (pc : PermissionCache) (now : Nat) (key : CacheKey) :
    Bool × Bool × PermissionCache :=
  if !pc.enabled then (false, false, pc)
  else
    match pc.lru.find? (fun e => e.key.keyString == key.keyString) with
    | none => (false, false, { pc with misses := pc.misses + 1 })
    | some entry =>
      if entry.expiresAt < now then
        (false, false,
          { pc with
            lru := pc.lru.eraseP (fun e => e.key.keyString == key.keyString)
            misses := pc.misses + 1 })
      else
        (entry.allowed, true,
          { pc with
            lru := entry :: pc.lru.eraseP (fun e => e.key.keyString == key.keyString)
            hits := pc.hits + 1 })

/-- PermissionCache.evictOldest: drop the back of the LRU list. -/
def PermissionCache.evictOldest (pc : PermissionCache) : PermissionCache :=
  if pc.lru.isEmpty then pc
  else { pc with lru := pc.lru.dropLast, evictions := pc.evictions + 1 }

/-- PermissionCache.Set: update-and-promote an existing key, otherwise
evict the LRU entry when at capacity and push the new entry to the front. -/
def PermissionCache.set (pc : PermissionCache) (now : Nat) (key : CacheKey)
    (allowed : Bool) : PermissionCache :=
  if !pc.enabled then pc
  else
    match pc.lru.find? (fun e => e.key.keyString == key.keyString) with
    | some entry =>
      { pc with
        lru := { entry with allowed := allowed, expiresAt := now + pc.ttl } ::
          pc.lru.eraseP (fun e => e.key.keyString == key.keyString) }
    | none =>
      let pc1 := if pc.maxSize ≤ (pc.lru.length : Int) then pc.evictOldest else pc
      { pc1 with lru := ⟨key, allowed, now + pc.ttl⟩ :: pc1.lru }

/-- PermissionCache.Clear. -/
def PermissionCache.Clear (pc : PermissionCache) : PermissionCache :=
  { pc with lru := [] }

/-! ## The cached evaluator (Evaluate / ClearCache) -/

/-- Evaluator from the cached evaluator file.  The patternCache field is
never consulted by any embedded code path and is omitted. -/
structure Evaluator where
  acl : ACL
  cache : Option PermissionCache

def NewEvaluator (acl : ACL) : Evaluator := ⟨acl, none⟩

def NewEvaluatorWithCache (acl : ACL) (cache : PermissionCache) : Evaluator :=
  ⟨acl, some cache⟩

/-- Evaluator.Evaluate: probe the cache (the context identity is always
non-nil here, see EvaluationContext), fall back to evaluateUncached and
populate the cache when evaluation succeeded. -/
def Evaluator.Evaluate (ev : Evaluator) (ctx : EvaluationContext) (now : Nat) :
    Bool × Option GoError × Evaluator :=
  match ev.cache with
  | some cache =>
    let cacheKey : CacheKey := ⟨ctx.identity.userID, ctx.path, ctx.operation⟩
    match cache.get now cacheKey with
    | (allowed, true, cache') => (allowed, none, { ev with cache := some cache' })
    | (_, false, cache') =>
      let r := evaluateUncached ev.acl ctx
      let cache2 := if r.2.isNone then cache'.set now cacheKey r.1 else cache'
      (r.1, r.2, { ev with cache := some cache2 })
  | none =>
    let r := evaluateUncached ev.acl ctx
    (r.1, r.2, ev)

/-- Evaluator.ClearCache. -/
def Evaluator.ClearCache (ev : Evaluator) : Evaluator :=
  match ev.cache with
  | some c => { ev with cache := some c.Clear }
  | none => ev

/-! ## Audit pipeline (levels, events, metrics, Log) -/

inductive AuditLevel where
  | none
  | denied
  | all
  deriving DecidableEq

inductive AuditResult where
  | allowed
  | denied
  | error
  deriving DecidableEq

/-- AuditEvent (times as Nat instants; duration in the same unit). -/
structure AuditEvent where
  timestamp : Nat
  requestID : String
  userID : String
  groups : List String
  roles : List String
  operation : String
  path : String
  result : AuditResult
  reason : String
  duration : Nat
  metadata : List (String × String)
  sourceIP : String

/-- AuditMetrics counters (the per-operation / per-user / per-path top-N
maps are not needed by any embedded claim and are omitted). -/
structure AuditMetrics where
  totalEvents : Nat
  allowedEvents : Nat
  deniedEvents : Nat
  errorEvents : Nat
  droppedEvents : Nat
  deriving DecidableEq

def AuditMetrics.RecordEvent (am : AuditMetrics) (event : AuditEvent) : AuditMetrics :=
  let am := { am with totalEvents := am.totalEvents + 1 }
  match event.result with
  | .allowed => { am with allowedEvents := am.allowedEvents + 1 }
  | .denied => { am with deniedEvents := am.deniedEvents + 1 }
  | .error => { am with errorEvents := am.errorEvents + 1 }

/-- AuditLogger: level filter, metrics, and the emitted event stream (the
serialized sink contents, in emission order). -/
structure AuditLogger where
  level : AuditLevel
  metrics : AuditMetrics
  events : List AuditEvent

/-- AuditLogger.Log: drop by level, record metrics, emit. -/
def AuditLogger.Log (al : AuditLogger) (event : AuditEvent) : AuditLogger :=
  if al.level == AuditLevel.none then al
  else if al.level == AuditLevel.denied && !(event.result == AuditResult.denied) then al
  else
    { al with
      metrics := al.metrics.RecordEvent event
      events := al.events ++ [event] }

/-! ## Context helpers (request context, identity extraction) -/

/-- The request context as seen by the facade: the values the permfs
context helpers may extract (identity, request id, metadata). -/
structure RequestContext where
  identity : Option Identity
  requestID : String
  metadata : List (String × String)

/-- GetIdentity: ErrNoIdentity when the context carries none. -/
def GetIdentity (ctx : RequestContext) : Except GoError Identity :=
  match ctx.identity with
  | none => .error .noIdentity
  | some i => .ok i

def GetMetadata (ctx : RequestContext) : List (String × String) := ctx.metadata

def GetRequestID (ctx : RequestContext) : String := ctx.requestID

/-! ## PermFS facade -/

structure PerformanceConfig where
  cacheEnabled : Bool
  cacheTTL : Nat
  cacheMaxSize : Int

structure AuditConfig where
  enabled : Bool
  level : Option AuditLevel

structure Config where
  acl : ACL
  audit : AuditConfig
  performance : PerformanceConfig

/-- NewAuditLogger: a disabled config yields a level-none logger. -/
def NewAuditLogger (config : AuditConfig) : AuditLogger :=
  if !config.enabled then ⟨AuditLevel.none, ⟨0, 0, 0, 0, 0⟩, []⟩
  else ⟨config.level.getD AuditLevel.all, ⟨0, 0, 0, 0, 0⟩, []⟩

/-- PermFS: the wrapped backend filesystem is an external collaborator and
appears only as the backendCalled trace bit of each operation. -/
structure PermFS where
  evaluator : Evaluator
  auditLogger : AuditLogger

/-- New: apply cache defaults (TTL 5 minutes = 3*10^11 ns, max size 10000)
and build the evaluator with or without a cache. -/
def PermFS.New (config : Config) : PermFS :=
  let ttl := if config.performance.cacheTTL == 0 then 300000000000
    else config.performance.cacheTTL
  let maxSize := if config.performance.cacheMaxSize == 0 then 10000
    else config.performance.cacheMaxSize
  let evaluator :=
    if config.performance.cacheEnabled then
      NewEvaluatorWithCache config.acl (NewPermissionCache maxSize ttl)
    else NewEvaluator config.acl
  ⟨evaluator, NewAuditLogger config.audit⟩

/-- Result of checkPermission: the returned error (none inside .ok means
allowed), the evaluation requests performed, and the updated state. -/
structure CheckResult where
  result : Except GoError Unit
  evals : List (String × Nat)
  pfs : PermFS

/-- checkPermission from the facade: extract identity (NoIdentity aborts
before any evaluation, audit or metrics), evaluate, log one audit event,
then map the outcome to nil / PermissionError / the evaluation error.
The reason string of the Result = Error audit branch stands in for Go's
err.Error(); that branch is unreachable (evaluation never errors). -/
def PermFS.checkPermission (pfs : PermFS) (ctx : RequestContext) (path : String)
    (op : Nat) (now : Nat) : CheckResult :=
  match GetIdentity ctx with
  | .error e => ⟨.error e, [], pfs⟩
  | .ok identity =>
    let evalCtx : EvaluationContext := ⟨identity, path, op, GetMetadata ctx⟩
    let res := pfs.evaluator.Evaluate evalCtx now
    let allowed := res.1
    let err := res.2.1
    let event : AuditEvent :=
      { timestamp := now
        requestID := GetRequestID ctx
        userID := identity.userID
        groups := identity.groups
        roles := identity.roles
        operation := opString op
        path := path
        result :=
          if err.isSome then AuditResult.error
          else if allowed then AuditResult.allowed
          else AuditResult.denied
        reason :=
          if err.isSome then "evaluation error"
          else if allowed then ""
          else "access denied by ACL"
        duration := 0
        metadata := evalCtx.metadata
        sourceIP := (evalCtx.metadata.lookup "source_ip").getD "" }
    let pfs' : PermFS := ⟨res.2.2, pfs.auditLogger.Log event⟩
    match err with
    | some e => ⟨.error e, [(path, op)], pfs'⟩
    | none =>
      if !allowed then
        ⟨.error (GoError.permissionDenied path op identity.userID "access denied by ACL"),
          [(path, op)], pfs'⟩
      else ⟨.ok (), [(path, op)], pfs'⟩

/-- The flag constants of the Go os package on this platform. -/
def O_WRONLY : Nat := 1

def O_RDWR : Nat := 2

def O_CREATE : Nat := 64

def O_TRUNC : Nat := 512

def O_APPEND : Nat := 1024

/-- The required-operation computation of PermFS.OpenFile. -/
def openFileRequiredOp (flag : Nat) : Nat :=
  let requiredOp : Nat := 0
  let requiredOp :=
    if flag &&& (O_WRONLY ||| O_RDWR ||| O_APPEND ||| O_CREATE ||| O_TRUNC) != 0
    then requiredOp ||| OperationWrite else requiredOp
  let requiredOp :=
    if flag &&& O_WRONLY == 0 then requiredOp ||| OperationRead else requiredOp
  let requiredOp :=
    if flag &&& O_CREATE != 0 then requiredOp ||| OperationWrite else requiredOp
  requiredOp

/-- Result of one facade filesystem operation: the returned error, the
evaluations performed, whether the backend was invoked, updated state. -/
structure OpResult where
  result : Except GoError Unit
  evals : List (String × Nat)
  backendCalled : Bool
  pfs : PermFS

/-- PermFS.OpenFile: one combined-operation permission check, then the
backend. -/
def PermFS.OpenFile (pfs : PermFS) (ctx : RequestContext) (name : String)
    (flag : Nat) (now : Nat) : OpResult :=
  let requiredOp := openFileRequiredOp flag
  match pfs.checkPermission ctx name requiredOp now with
  | ⟨.error e, evs, pfs'⟩ => ⟨.error e, evs, false, pfs'⟩
  | ⟨.ok _, evs, pfs'⟩ => ⟨.ok (), evs, true, pfs'⟩

def PermFS.Mkdir (pfs : PermFS) (ctx : RequestContext) (name : String)
    (now : Nat) : OpResult :=
  match pfs.checkPermission ctx name OperationWrite now with
  | ⟨.error e, evs, pfs'⟩ => ⟨.error e, evs, false, pfs'⟩
  | ⟨.ok _, evs, pfs'⟩ => ⟨.ok (), evs, true, pfs'⟩

def PermFS.MkdirAll (pfs : PermFS) (ctx : RequestContext) (name : String)
    (now : Nat) : OpResult :=
  match pfs.checkPermission ctx name OperationWrite now with
  | ⟨.error e, evs, pfs'⟩ => ⟨.error e, evs, false, pfs'⟩
  | ⟨.ok _, evs, pfs'⟩ => ⟨.ok (), evs, true, pfs'⟩

def PermFS.Remove (pfs : PermFS) (ctx : RequestContext) (name : String)
    (now : Nat) : OpResult :=
  match pfs.checkPermission ctx name OperationDelete now with
  | ⟨.error e, evs, pfs'⟩ => ⟨.error e, evs, false, pfs'⟩
  | ⟨.ok _, evs, pfs'⟩ => ⟨.ok (), evs, true, pfs'⟩

def PermFS.RemoveAll (pfs : PermFS) (ctx : RequestContext) (name : String)
    (now : Nat) : OpResult :=
  match pfs.checkPermission ctx name OperationDelete now with
  | ⟨.error e, evs, pfs'⟩ => ⟨.error e, evs, false, pfs'⟩
  | ⟨.ok _, evs, pfs'⟩ => ⟨.ok (), evs, true, pfs'⟩

/-- PermFS.Rename: Delete on the old path, then Write on the new path; the
second check and the backend run only if the first permits. -/
def PermFS.Rename (pfs : PermFS) (ctx : RequestContext) (oldname newname : String)
    (now : Nat) : OpResult :=
  match pfs.checkPermission ctx oldname OperationDelete now with
  | ⟨.error e, evs, pfs'⟩ => ⟨.error e, evs, false, pfs'⟩
  | ⟨.ok _, evs1, pfs1⟩ =>
    match pfs1.checkPermission ctx newname OperationWrite now with
    | ⟨.error e, evs2, pfs2⟩ => ⟨.error e, evs1 ++ evs2, false, pfs2⟩
    | ⟨.ok _, evs2, pfs2⟩ => ⟨.ok (), evs1 ++ evs2, true, pfs2⟩

def PermFS.Stat (pfs : PermFS) (ctx : RequestContext) (name : String)
    (now : Nat) : OpResult :=
  match pfs.checkPermission ctx name OperationMetadata now with
  | ⟨.error e, evs, pfs'⟩ => ⟨.error e, evs, false, pfs'⟩
  | ⟨.ok _, evs, pfs'⟩ => ⟨.ok (), evs, true, pfs'⟩

def PermFS.Lstat (pfs : PermFS) (ctx : RequestContext) (name : String)
    (now : Nat) : OpResult :=
  match pfs.checkPermission ctx name OperationMetadata now with
  | ⟨.error e, evs, pfs'⟩ => ⟨.error e, evs, false, pfs'⟩
  | ⟨.ok _, evs, pfs'⟩ => ⟨.ok (), evs, true, pfs'⟩

def PermFS.ReadDir (pfs : PermFS) (ctx : RequestContext) (name : String)
    (now : Nat) : OpResult :=
  match pfs.checkPermission ctx name OperationRead now with
  | ⟨.error e, evs, pfs'⟩ => ⟨.error e, evs, false, pfs'⟩
  | ⟨.ok _, evs, pfs'⟩ => ⟨.ok (), evs, true, pfs'⟩

def PermFS.Chmod (pfs : PermFS) (ctx : RequestContext) (name : String)
    (now : Nat) : OpResult :=
  match pfs.checkPermission ctx name OperationMetadata now with
  | ⟨.error e, evs, pfs'⟩ => ⟨.error e, evs, false, pfs'⟩
  | ⟨.ok _, evs, pfs'⟩ => ⟨.ok (), evs, true, pfs'⟩

def PermFS.Chown (pfs : PermFS) (ctx : RequestContext) (name : String)
    (now : Nat) : OpResult :=
  match pfs.checkPermission ctx name OperationAdmin now with
  | ⟨.error e, evs, pfs'⟩ => ⟨.error e, evs, false, pfs'⟩
  | ⟨.ok _, evs, pfs'⟩ => ⟨.ok (), evs, true, pfs'⟩

def PermFS.Chtimes (pfs : PermFS) (ctx : RequestContext) (name : String)
    (now : Nat) : OpResult :=
  match pfs.checkPermission ctx name OperationMetadata now with
  | ⟨.error e, evs, pfs'⟩ => ⟨.error e, evs, false, pfs'⟩
  | ⟨.ok _, evs, pfs'⟩ => ⟨.ok (), evs, true, pfs'⟩

/-- PermFS.ClearCache. -/
def PermFS.ClearCache (pfs : PermFS) : PermFS :=
  { pfs with evaluator := pfs.evaluator.ClearCache }

/-- PermFS.AddRule: append and invalidate the whole cache (Go returns a
nil error unconditionally). -/
def PermFS.AddRule (pfs : PermFS) (entry : ACLEntry) : PermFS :=
  let pfs :=
    { pfs with
      evaluator :=
        { pfs.evaluator with
          acl :=
            { pfs.evaluator.acl with
              entries := pfs.evaluator.acl.entries ++ [entry] } } }
  pfs.ClearCache

/-- PermFS.RemoveRule: keep every entry that differs from the argument in
subject, path pattern, permissions or effect (priority and conditions are
not compared by the Go code), then invalidate the whole cache. -/
def PermFS.RemoveRule (pfs : PermFS) (entry : ACLEntry) : PermFS :=
  let newEntries := pfs.evaluator.acl.entries.filter
    (fun e =>
      !(e.subject == entry.subject) || !(e.pathPattern == entry.pathPattern) ||
      !(e.permissions == entry.permissions) || !(e.effect == entry.effect))
  let pfs :=
    { pfs with
      evaluator :=
        { pfs.evaluator with
          acl := { pfs.evaluator.acl with entries := newEntries } } }
  pfs.ClearCache

/-! ## Evaluator characterization -/

/-- Maximum priority of a list of entries (0 on the empty list, which the
evaluator never consults). -/
def maxPrio : List ACLEntry → Int
  | [] => 0
  | [e] => e.priority
  | e :: rest => max e.priority (maxPrio rest)

theorem maxPrio_cons (e : ACLEntry) (l : List ACLEntry) (h : l ≠ []) :
    maxPrio (e :: l) = max e.priority (maxPrio l) := by
  match l with
  | [] => exact absurd rfl h
  | x :: xs => rfl

theorem le_maxPrio_of_mem {l : List ACLEntry} {e : ACLEntry} (h : e ∈ l) :
    e.priority ≤ maxPrio l := by
  induction l with
  | nil => cases h
  | cons x xs ih =>
    match xs with
    | [] =>
      simp at h
      simp [maxPrio, h]
    | y :: ys =>
      rw [maxPrio_cons x (y :: ys) (by simp)]
      rcases List.mem_cons.mp h with h1 | h1
      · rw [h1]; exact le_max_left _ _
      · exact le_trans (ih h1) (le_max_right _ _)

theorem exists_maxPrio_mem {l : List ACLEntry} (h : l ≠ []) :
    ∃ e ∈ l, e.priority = maxPrio l := by
  induction l with
  | nil => exact absurd rfl h
  | cons x xs ih =>
    match xs with
    | [] => exact ⟨x, by simp, by simp [maxPrio]⟩
    | y :: ys =>
      rw [maxPrio_cons x (y :: ys) (by simp)]
      rcases ih (by simp) with ⟨e, hmem, hpe⟩
      rcases le_total (maxPrio (y :: ys)) x.priority with hle | hle
      · exact ⟨x, by simp, by rw [max_eq_left hle]⟩
      · exact ⟨e, List.mem_cons_of_mem x hmem, by rw [max_eq_right hle, hpe]⟩

theorem maxPrio_congr_perm {l1 l2 : List ACLEntry} (hp : l1.Perm l2) (h : l1 ≠ []) :
    maxPrio l1 = maxPrio l2 := by
  have h2 : l2 ≠ [] := by
    intro hnil
    rw [hnil] at hp
    exact h (List.Perm.eq_nil hp)
  rcases exists_maxPrio_mem h with ⟨e1, hm1, hp1⟩
  rcases exists_maxPrio_mem h2 with ⟨e2, hm2, hp2⟩
  have a1 : e1.priority ≤ maxPrio l2 := le_maxPrio_of_mem (hp.mem_iff.mp hm1)
  have a2 : e2.priority ≤ maxPrio l1 := le_maxPrio_of_mem (hp.mem_iff.mpr hm2)
  omega

instance : IsTotal ACLEntry (fun a b => b.priority ≤ a.priority) :=
  ⟨fun a b => le_total b.priority a.priority⟩

instance : IsTrans ACLEntry (fun a b => b.priority ≤ a.priority) :=
  ⟨fun _ _ _ h1 h2 => le_trans h2 h1⟩

theorem sortByPriorityDesc_perm (l : List ACLEntry) :
    (sortByPriorityDesc l).Perm l :=
  List.perm_insertionSort _ l

theorem sortByPriorityDesc_sorted (l : List ACLEntry) :
    (sortByPriorityDesc l).Sorted (fun a b => b.priority ≤ a.priority) :=
  List.sorted_insertionSort _ l

/-- On a priority-descending list bounded by hp, the top-band scan finds
exactly the entries of priority hp with the wanted effect. -/
theorem scanTopBand_iff {hp : Int} {eff : Effect} {l : List ACLEntry}
    (hs : l.Sorted (fun a b => b.priority ≤ a.priority))
    (hb : ∀ e ∈ l, e.priority ≤ hp) :
    scanTopBand hp eff l = true ↔ ∃ e ∈ l, e.priority = hp ∧ e.effect = eff := by
  induction l with
  | nil => simp [scanTopBand]
  | cons x xs ih =>
    have hpx := hb x (by simp)
    have hsx := (List.sorted_cons.mp hs).1
    have hstail := (List.sorted_cons.mp hs).2
    rw [scanTopBand]
    by_cases hlt : x.priority < hp
    · rw [if_pos (by exact_mod_cast hlt)]
      constructor
      · intro hfalse; cases hfalse
      · rintro ⟨e, hmem, hpe, _⟩
        rcases List.mem_cons.mp hmem with h1 | h1
        · rw [h1] at hpe; omega
        · have := hsx e h1
          omega
    · rw [if_neg (by exact_mod_cast hlt)]
      have hpeq : x.priority = hp := le_antisymm hpx (by omega)
      by_cases heff : x.effect = eff
      · rw [if_pos (by simp [heff])]
        exact ⟨fun _ => ⟨x, by simp, hpeq, heff⟩, fun _ => rfl⟩
      · rw [if_neg (by simp [heff])]
        rw [ih hstail (fun e he => hb e (List.mem_cons_of_mem x he))]
        constructor
        · rintro ⟨e, hmem, hrest⟩
          exact ⟨e, List.mem_cons_of_mem x hmem, hrest⟩
        · rintro ⟨e, hmem, hpe, heq⟩
          rcases List.mem_cons.mp hmem with h1 | h1
          · rw [h1] at heq; exact absurd heq heff
          · exact ⟨e, h1, hpe, heq⟩

theorem evaluateUncached_err_none (acl : ACL) (ctx : EvaluationContext) :
    (evaluateUncached acl ctx).2 = none := by
  unfold evaluateUncached
  dsimp only
  split
  · rfl
  · split
    · rfl
    · split
      · rfl
      · split <;> rfl

/-- The decision of evaluateUncached, characterized without reference to
the sort: default on no match, otherwise deny-free-ness of the maximum
priority band among the matching entries. -/
theorem evaluateUncached_decision (acl : ACL) (ctx : EvaluationContext) :
    evaluateUncached acl ctx =
      (if (acl.entries.filter (fun e => e.Matches ctx && e.Applies ctx.operation)).isEmpty
       then acl.default == Effect.allow
       else
         !((acl.entries.filter (fun e => e.Matches ctx && e.Applies ctx.operation)).any
           (fun e =>
             e.priority == maxPrio (acl.entries.filter
               (fun e' => e'.Matches ctx && e'.Applies ctx.operation)) &&
             e.effect == Effect.deny)),
       none) := by
  unfold evaluateUncached
  by_cases hemp : (acl.entries.filter
      (fun e => e.Matches ctx && e.Applies ctx.operation)).isEmpty
  · rw [if_pos hemp, if_pos hemp]
  · rw [if_neg hemp, if_neg hemp]
    have hperm := sortByPriorityDesc_perm
      (acl.entries.filter (fun e => e.Matches ctx && e.Applies ctx.operation))
    have hsort := sortByPriorityDesc_sorted
      (acl.entries.filter (fun e => e.Matches ctx && e.Applies ctx.operation))
    have hmne : acl.entries.filter
        (fun e => e.Matches ctx && e.Applies ctx.operation) ≠ [] := by
      simpa [List.isEmpty_iff] using hemp
    have hsne : sortByPriorityDesc (acl.entries.filter
        (fun e => e.Matches ctx && e.Applies ctx.operation)) ≠ [] := by
      intro h0
      rw [h0] at hperm
      exact hmne hperm.symm.eq_nil
    obtain ⟨hd, tl, hst⟩ : ∃ hd tl, sortByPriorityDesc (acl.entries.filter
        (fun e => e.Matches ctx && e.Applies ctx.operation)) = hd :: tl := by
      rcases hsh : sortByPriorityDesc (acl.entries.filter
          (fun e => e.Matches ctx && e.Applies ctx.operation)) with _ | ⟨a, b⟩
      · exact absurd hsh hsne
      · exact ⟨a, b, rfl⟩
    rw [hst] at hperm hsort ⊢
    simp only [List.headD_cons]
    have hub : ∀ e ∈ hd :: tl, e.priority ≤ hd.priority := by
      intro e he
      rcases List.mem_cons.mp he with h1 | h1
      · rw [h1]
      · exact (List.sorted_cons.mp hsort).1 e h1
    have hhd_mem : hd ∈ acl.entries.filter
        (fun e => e.Matches ctx && e.Applies ctx.operation) :=
      hperm.subset (by simp)
    have hmax : hd.priority = maxPrio (acl.entries.filter
        (fun e => e.Matches ctx && e.Applies ctx.operation)) := by
      refine le_antisymm (le_maxPrio_of_mem hhd_mem) ?l
      rcases exists_maxPrio_mem hmne with ⟨e, hmem, hpe⟩
      rw [← hpe]
      exact hub e (hperm.mem_iff.mpr hmem)
    have hany : ((acl.entries.filter (fun e => e.Matches ctx && e.Applies ctx.operation)).any
        (fun e =>
          e.priority == maxPrio (acl.entries.filter
            (fun e' => e'.Matches ctx && e'.Applies ctx.operation)) &&
          e.effect == Effect.deny)) = scanTopBand hd.priority Effect.deny (hd :: tl) := by
      rcases hsc : scanTopBand hd.priority Effect.deny (hd :: tl) with _ | _
      · rw [List.any_eq_false]
        intro e hmem
        simp only [Bool.and_eq_true, beq_iff_eq, not_and]
        intro hpe heff
        have hpe' : e.priority = hd.priority := by rw [hpe, ← hmax]
        have : ∃ x ∈ hd :: tl, x.priority = hd.priority ∧ x.effect = Effect.deny :=
          ⟨e, hperm.mem_iff.mpr hmem, hpe', heff⟩
        rw [← scanTopBand_iff hsort hub] at this
        rw [hsc] at this
        cases this
      · rw [List.any_eq_true]
        rcases (scanTopBand_iff hsort hub).mp hsc with ⟨e, hmem, hpe, heff⟩
        refine ⟨e, hperm.mem_iff.mp hmem, ?b⟩
        simp only [Bool.and_eq_true, beq_iff_eq]
        refine ⟨?b1, heff⟩
        rw [hpe, hmax]
    rw [hany]
    rcases hsc : scanTopBand hd.priority Effect.deny (hd :: tl) with _ | _
    · rw [Bool.not_false]
      have hallow : scanTopBand hd.priority Effect.allow (hd :: tl) = true := by
        rw [scanTopBand_iff hsort hub]
        refine ⟨hd, by simp, rfl, ?c⟩
        rcases heff : hd.effect with _ | _
        · exfalso
          have : ∃ x ∈ hd :: tl, x.priority = hd.priority ∧ x.effect = Effect.deny :=
            ⟨hd, by simp, rfl, heff⟩
          rw [← scanTopBand_iff hsort hub, hsc] at this
          cases this
        · rfl
      simp [hallow]
    · simp

/-- Concrete evaluation helper: the pattern "/a" matches the path "/a". -/
theorem matchPattern_a_a : matchPattern "/a" "/a" = .ok true := by
  simp [matchPattern, pathClean, cleanLoop, popWhile, hasSubstring, doubleStar,
    matchDoubleStarPattern, splitSlash, matchSegments, segScan, goMatch,
    scanChunk, scanBody, stripStars, matchChunk_eq, matchRanges_eq, getEsc,
    validateRest, starTrials]

/-- Claim C1: at the maximum matching priority a Deny forces a deny
decision; with no Deny in the maximum band, an Allow there forces an allow
decision regardless of lower-priority entries. -/
theorem evaluate_deny_dominates_allow (acl : ACL) (ctx : EvaluationContext)
    (matching : List ACLEntry)
    (hm : matching = acl.entries.filter
      (fun e => e.Matches ctx && e.Applies ctx.operation)) :
    ((∃ e ∈ matching, e.priority = maxPrio matching ∧ e.effect = Effect.deny) →
      (evaluateUncached acl ctx).1 = false) ∧
    ((∀ e ∈ matching, e.priority = maxPrio matching → e.effect ≠ Effect.deny) →
      (∃ e ∈ matching, e.priority = maxPrio matching ∧ e.effect = Effect.allow) →
      (evaluateUncached acl ctx).1 = true) := by
  subst hm
  rw [evaluateUncached_decision]
  constructor
  · rintro ⟨e, hmem, hpe, heff⟩
    have hne : ¬(acl.entries.filter
        (fun e => e.Matches ctx && e.Applies ctx.operation)).isEmpty = true := by
      simp only [List.isEmpty_iff]
      intro h0
      rw [h0] at hmem
      cases hmem
    rw [if_neg hne]
    simp only [Prod.fst]
    have hany : ((acl.entries.filter (fun e => e.Matches ctx && e.Applies ctx.operation)).any
        (fun e =>
          e.priority == maxPrio (acl.entries.filter
            (fun e' => e'.Matches ctx && e'.Applies ctx.operation)) &&
          e.effect == Effect.deny)) = true := by
      rw [List.any_eq_true]
      refine ⟨e, hmem, ?p⟩
      simp only [Bool.and_eq_true, beq_iff_eq]
      exact ⟨hpe, heff⟩
    rw [hany]
    rfl
  · rintro hnodeny ⟨e, hmem, hpe, heff⟩
    have hne : ¬(acl.entries.filter
        (fun e => e.Matches ctx && e.Applies ctx.operation)).isEmpty = true := by
      simp only [List.isEmpty_iff]
      intro h0
      rw [h0] at hmem
      cases hmem
    rw [if_neg hne]
    simp only [Prod.fst]
    have hany : ((acl.entries.filter (fun e => e.Matches ctx && e.Applies ctx.operation)).any
        (fun e =>
          e.priority == maxPrio (acl.entries.filter
            (fun e' => e'.Matches ctx && e'.Applies ctx.operation)) &&
          e.effect == Effect.deny)) = false := by
      rw [List.any_eq_false]
      intro x hx
      simp only [Bool.and_eq_true, beq_iff_eq, not_and]
      intro hpx
      exact fun hdx => hnodeny x hx hpx hdx
    rw [hany]
    rfl

/-- Witness for C1: an Everyone Allow and an Everyone Deny both at priority
10 on "/a" evaluate to deny; an Allow at 10 above a Deny at 5 evaluates to
allow. -/
theorem evaluate_deny_dominates_allow_witness :
    (evaluateUncached
      ⟨[⟨Subject.Everyone, "/a", 1, Effect.allow, 10, []⟩,
        ⟨Subject.Everyone, "/a", 1, Effect.deny, 10, []⟩], Effect.deny⟩
      ⟨⟨"u", [], [], []⟩, "/a", 1, []⟩).1 = false ∧
    (evaluateUncached
      ⟨[⟨Subject.Everyone, "/a", 1, Effect.allow, 10, []⟩,
        ⟨Subject.Everyone, "/a", 1, Effect.deny, 5, []⟩], Effect.deny⟩
      ⟨⟨"u", [], [], []⟩, "/a", 1, []⟩).1 = true := by
  constructor
  · refine (evaluate_deny_dominates_allow _ _ _ rfl).1 ?w1
    simp [ACLEntry.Matches, ACLEntry.Applies, Identity.MatchesSubject,
      Subject.Everyone, matchPattern_a_a, opHas, maxPrio]
  · refine (evaluate_deny_dominates_allow _ _ _ rfl).2 ?w2 ?w3
    · simp [ACLEntry.Matches, ACLEntry.Applies, Identity.MatchesSubject,
        Subject.Everyone, matchPattern_a_a, opHas, maxPrio]
    · simp [ACLEntry.Matches, ACLEntry.Applies, Identity.MatchesSubject,
        Subject.Everyone, matchPattern_a_a, opHas, maxPrio]

/-- Claim C10: the evaluation decision is invariant under permutation of
the ACL entry list (the default effect being equal), even across entries
of identical priority. -/
theorem evaluate_order_invariant (acl1 acl2 : ACL) (ctx : EvaluationContext)
    (hperm : acl1.entries.Perm acl2.entries) (hdef : acl1.default = acl2.default) :
    evaluateUncached acl1 ctx = evaluateUncached acl2 ctx := by
  rw [evaluateUncached_decision, evaluateUncached_decision]
  have hfp : (acl1.entries.filter
      (fun e => e.Matches ctx && e.Applies ctx.operation)).Perm
      (acl2.entries.filter (fun e => e.Matches ctx && e.Applies ctx.operation)) :=
    hperm.filter _
  by_cases hemp : (acl1.entries.filter
      (fun e => e.Matches ctx && e.Applies ctx.operation)).isEmpty = true
  · have hemp2 : (acl2.entries.filter
        (fun e => e.Matches ctx && e.Applies ctx.operation)).isEmpty = true := by
      rw [List.isEmpty_iff_length_eq_zero] at hemp ⊢
      rw [← hfp.length_eq]
      exact hemp
    rw [if_pos hemp, if_pos hemp2, hdef]
  · have hemp2 : ¬(acl2.entries.filter
        (fun e => e.Matches ctx && e.Applies ctx.operation)).isEmpty = true := by
      rw [List.isEmpty_iff_length_eq_zero] at hemp ⊢
      rw [← hfp.length_eq]
      exact hemp
    rw [if_neg hemp, if_neg hemp2]
    have hne : acl1.entries.filter
        (fun e => e.Matches ctx && e.Applies ctx.operation) ≠ [] := by
      simpa [List.isEmpty_iff] using hemp
    have hmax := maxPrio_congr_perm hfp hne
    rw [← hmax]
    have hany : ((acl1.entries.filter (fun e => e.Matches ctx && e.Applies ctx.operation)).any
        (fun e =>
          e.priority == maxPrio (acl1.entries.filter
            (fun e' => e'.Matches ctx && e'.Applies ctx.operation)) &&
          e.effect == Effect.deny)) =
        ((acl2.entries.filter (fun e => e.Matches ctx && e.Applies ctx.operation)).any
        (fun e =>
          e.priority == maxPrio (acl1.entries.filter
            (fun e' => e'.Matches ctx && e'.Applies ctx.operation)) &&
          e.effect == Effect.deny)) := by
      rcases hb : ((acl2.entries.filter
          (fun e => e.Matches ctx && e.Applies ctx.operation)).any
          (fun e =>
            e.priority == maxPrio (acl1.entries.filter
              (fun e' => e'.Matches ctx && e'.Applies ctx.operation)) &&
            e.effect == Effect.deny)) with _ | _
      · rw [hb, List.any_eq_false]
        rw [List.any_eq_false] at hb
        intro x hx
        exact hb x (hfp.mem_iff.mp hx)
      · rw [hb, List.any_eq_true]
        rw [List.any_eq_true] at hb
        rcases hb with ⟨x, hx, hpx⟩
        exact ⟨x, hfp.mem_iff.mpr hx, hpx⟩
    rw [hany]

/-- Witness for C10: swapping two same-priority entries (an Allow and a
Deny) leaves the decision unchanged. -/
theorem evaluate_order_invariant_witness :
    evaluateUncached
      ⟨[⟨Subject.Everyone, "/a", 1, Effect.allow, 10, []⟩,
        ⟨Subject.Everyone, "/a", 1, Effect.deny, 10, []⟩], Effect.deny⟩
      ⟨⟨"u", [], [], []⟩, "/a", 1, []⟩ =
    evaluateUncached
      ⟨[⟨Subject.Everyone, "/a", 1, Effect.deny, 10, []⟩,
        ⟨Subject.Everyone, "/a", 1, Effect.allow, 10, []⟩], Effect.deny⟩
      ⟨⟨"u", [], [], []⟩, "/a", 1, []⟩ :=
  evaluate_order_invariant _ _ _ (List.Perm.swap _ _ _) rfl


/-- Claim C9: evaluation never surfaces an error: a pattern error makes the
entry non-matching inside ACLEntry.Matches, both the uncached and the
cached Evaluate return a nil error for every context (whose identity is
non-nil by construction), and the Result = Error audit branch of
checkPermission is unreachable: every audit event it emits beyond the
pre-existing stream has a non-Error result. -/
theorem evaluate_never_surfaces_errors :
    (∀ (e : ACLEntry) (ctx : EvaluationContext) (err : GoError),
      matchPattern e.pathPattern ctx.path = .error err → e.Matches ctx = false) ∧
    (∀ (acl : ACL) (ctx : EvaluationContext), (evaluateUncached acl ctx).2 = none) ∧
    (∀ (ev : Evaluator) (ctx : EvaluationContext) (now : Nat),
      (ev.Evaluate ctx now).2.1 = none) ∧
    (∀ (pfs : PermFS) (ctx : RequestContext) (path : String) (op now : Nat),
      ∀ event ∈ (pfs.checkPermission ctx path op now).pfs.auditLogger.events,
        event ∈ pfs.auditLogger.events ∨ event.result ≠ AuditResult.error) := by
  have hmatches : ∀ (e : ACLEntry) (ctx : EvaluationContext) (err : GoError),
      matchPattern e.pathPattern ctx.path = .error err → e.Matches ctx = false := by
    intro e ctx err h
    unfold ACLEntry.Matches
    rw [h]
    split <;> rfl
  have heval : ∀ (ev : Evaluator) (ctx : EvaluationContext) (now : Nat),
      (ev.Evaluate ctx now).2.1 = none := by
    intro ev ctx now
    unfold Evaluator.Evaluate
    rcases ev.cache with _ | cache
    · simp [evaluateUncached_err_none]
    · dsimp only
      rcases hg : cache.get now ⟨ctx.identity.userID, ctx.path, ctx.operation⟩
        with ⟨allowed, found, cache'⟩
      rcases found with _ | _
      · simp [evaluateUncached_err_none]
      · simp
  refine ⟨hmatches, fun acl ctx => evaluateUncached_err_none acl ctx, heval, ?cp⟩
  intro pfs ctx path op now event hmem
  unfold PermFS.checkPermission at hmem
  rcases hid : GetIdentity ctx with e | identity
  · rw [hid] at hmem
    exact Or.inl hmem
  · rw [hid] at hmem
    dsimp only at hmem
    have herr := heval pfs.evaluator ⟨identity, path, op, GetMetadata ctx⟩ now
    rw [herr] at hmem
    simp only [Option.isSome_none, Bool.false_eq_true, if_false] at hmem
    cases hall : (pfs.evaluator.Evaluate ⟨identity, path, op, GetMetadata ctx⟩ now).1 <;>
      simp only [hall] at hmem <;>
      cases hl : pfs.auditLogger.level <;>
      simp [AuditLogger.Log, hl] at hmem <;>
      try (exact Or.inl hmem)
    all_goals (rcases hmem with h1 | h1
               · exact Or.inl h1
               · right
                 rw [h1]
                 simp)

/-- Concrete evaluation helper: the malformed pattern "[" produces
ErrInvalidPattern against the path "x". -/
theorem matchPattern_bracket_x : matchPattern "[" "x" = .error .invalidPattern := by
  simp [matchPattern, pathClean, cleanLoop, popWhile, hasSubstring, doubleStar,
    matchDoubleStarPattern, splitSlash, matchSegments, segScan, goMatch,
    scanChunk, scanBody, stripStars, matchChunk_eq, matchRanges_eq, getEsc,
    validateRest, starTrials]

/-- Witness for C9: a concrete entry whose pattern "[" errors is treated as
non-matching. -/
theorem evaluate_never_surfaces_errors_witness :
    matchPattern "[" "x" = .error .invalidPattern ∧
    ACLEntry.Matches ⟨Subject.Everyone, "[", 1, Effect.allow, 0, []⟩
      ⟨⟨"u", [], [], []⟩, "x", 1, []⟩ = false :=
  ⟨matchPattern_bracket_x,
    evaluate_never_surfaces_errors.1
      ⟨Subject.Everyone, "[", 1, Effect.allow, 0, []⟩
      ⟨⟨"u", [], [], []⟩, "x", 1, []⟩ .invalidPattern matchPattern_bracket_x⟩

/-- Counterexample for C2: NewPatternMatcher does not reject a pattern
containing the literal `***`; it returns a matcher and a nil error. -/
theorem newPatternMatcher_accepts_triple_star :
    NewPatternMatcher "/a/***" = .ok ⟨"/a/***", true⟩ := by
  simp [NewPatternMatcher, pathClean, cleanLoop, popWhile]

/-- Amended C2: compilation never rejects any pattern (NewPatternMatcher
always returns nil error); the `***` literal is instead rejected by
validatePathPattern, the validation-time check, for every pattern
containing it. -/
theorem triple_star_rejected_at_validation (pattern : String)
    (h : hasSubstring ['*', '*', '*'] pattern.toList = true) :
    (∃ pm, NewPatternMatcher pattern = .ok pm) ∧
    validatePathPattern pattern =
      some "invalid pattern: *** is not supported, use **" := by
  refine ⟨⟨_, rfl⟩, ?v⟩
  unfold validatePathPattern
  have hne : ¬(pattern == "") = true := by
    intro h0
    rw [beq_iff_eq] at h0
    rw [h0] at h
    simp [hasSubstring] at h
  rw [if_neg hne]
  dsimp only [NewPatternMatcher]
  rw [if_pos h]

/-- Witness for the amended C2 at the pattern "/a/***". -/
theorem triple_star_rejected_at_validation_witness :
    hasSubstring ['*', '*', '*'] "/a/***".toList = true ∧
    validatePathPattern "/a/***" =
      some "invalid pattern: *** is not supported, use **" := by
  have h : hasSubstring ['*', '*', '*'] "/a/***".toList = true := by decide
  exact ⟨h, (triple_star_rejected_at_validation "/a/***" h).2⟩

/-- C5 (code bug): RemoveRule's comment says it removes by matching all
fields, but its comparison skips Priority (and Conditions): an entry
differing from the argument solely in priority is removed anyway, and an
empty entry list results where the exact-field-equality semantics would
keep the stored entry. -/
theorem removeRule_ignores_priority :
    ((100 : Int) ≠ (0 : Int)) ∧
    (PermFS.RemoveRule
      ⟨⟨⟨[⟨Subject.User "alice", "/data/**", 1, Effect.allow, 100, []⟩],
          Effect.deny⟩, none⟩,
        ⟨AuditLevel.none, ⟨0, 0, 0, 0, 0⟩, []⟩⟩
      ⟨Subject.User "alice", "/data/**", 1, Effect.allow, 0, []⟩).evaluator.acl.entries
      = [] := by
  constructor
  · decide
  · rfl

/-- Miss on an empty cache: Get finds nothing. -/
theorem cacheGet_empty_miss (pc : PermissionCache) (hlru : pc.lru = [])
    (now : Nat) (key : CacheKey) : (pc.get now key).2.1 = false := by
  unfold PermissionCache.get
  split
  · rfl
  · rw [hlru]
    rfl

/-- Claim C3: a kernel built with caching enabled holds a cache, and after
AddRule or RemoveRule every cache Get — any user, path and operation — is
a miss, because both mutations clear the whole cache. -/
theorem mutation_invalidates_cache :
    (∀ config : Config, config.performance.cacheEnabled = true →
      (PermFS.New config).evaluator.cache.isSome = true) ∧
    (∀ (pfs : PermFS) (entry : ACLEntry) (c : PermissionCache),
      (pfs.AddRule entry).evaluator.cache = some c →
      ∀ (now : Nat) (key : CacheKey), (c.get now key).2.1 = false) ∧
    (∀ (pfs : PermFS) (entry : ACLEntry) (c : PermissionCache),
      (pfs.RemoveRule entry).evaluator.cache = some c →
      ∀ (now : Nat) (key : CacheKey), (c.get now key).2.1 = false) := by
  refine ⟨?n, ?a, ?r⟩
  · intro config hen
    unfold PermFS.New
    simp [hen, NewEvaluatorWithCache]
  · intro pfs entry c hc now key
    unfold PermFS.AddRule PermFS.ClearCache Evaluator.ClearCache at hc
    dsimp only at hc
    rcases hcache : pfs.evaluator.cache with _ | c0 <;> rw [hcache] at hc <;>
      dsimp only at hc
    · cases hc
    · simp only [Option.some.injEq] at hc
      exact cacheGet_empty_miss c (by rw [← hc]; rfl) now key
  · intro pfs entry c hc now key
    unfold PermFS.RemoveRule PermFS.ClearCache Evaluator.ClearCache at hc
    dsimp only at hc
    rcases hcache : pfs.evaluator.cache with _ | c0 <;> rw [hcache] at hc <;>
      dsimp only at hc
    · cases hc
    · simp only [Option.some.injEq] at hc
      exact cacheGet_empty_miss c (by rw [← hc]; rfl) now key

/-- Witness for C3 at a concrete enabled-cache kernel and key. -/
theorem mutation_invalidates_cache_witness :
    ((PermFS.New ⟨⟨[], Effect.deny⟩, ⟨false, none⟩, ⟨true, 0, 0⟩⟩).AddRule
        ⟨Subject.User "alice", "/data/**", 1, Effect.allow, 100, []⟩).evaluator.cache
      = some ⟨10000, 300000000000, [], 0, 0, 0, true⟩ ∧
    ((⟨10000, 300000000000, [], 0, 0, 0, true⟩ : PermissionCache).get 7
      ⟨"alice", "/data/f", 1⟩).2.1 = false := by
  constructor
  · rfl
  · exact (mutation_invalidates_cache.2.1
      (PermFS.New ⟨⟨[], Effect.deny⟩, ⟨false, none⟩, ⟨true, 0, 0⟩⟩)
      ⟨Subject.User "alice", "/data/**", 1, Effect.allow, 100, []⟩
      ⟨10000, 300000000000, [], 0, 0, 0, true⟩ rfl 7 ⟨"alice", "/data/f", 1⟩)

/-- Claim C7: a request context without identity makes every facade
operation return the NoIdentity error verbatim, with no evaluation
performed, no audit event emitted, no metrics recorded (the PermFS state,
audit logger included, is returned unchanged) and the backend never
invoked. -/
theorem no_identity_short_circuits (pfs : PermFS) (ctx : RequestContext)
    (h : ctx.identity = none) (name oldname newname : String) (flag : Nat)
    (now : Nat) :
    pfs.OpenFile ctx name flag now = ⟨.error .noIdentity, [], false, pfs⟩ ∧
    pfs.Mkdir ctx name now = ⟨.error .noIdentity, [], false, pfs⟩ ∧
    pfs.MkdirAll ctx name now = ⟨.error .noIdentity, [], false, pfs⟩ ∧
    pfs.Remove ctx name now = ⟨.error .noIdentity, [], false, pfs⟩ ∧
    pfs.RemoveAll ctx name now = ⟨.error .noIdentity, [], false, pfs⟩ ∧
    pfs.Rename ctx oldname newname now = ⟨.error .noIdentity, [], false, pfs⟩ ∧
    pfs.Stat ctx name now = ⟨.error .noIdentity, [], false, pfs⟩ ∧
    pfs.Lstat ctx name now = ⟨.error .noIdentity, [], false, pfs⟩ ∧
    pfs.ReadDir ctx name now = ⟨.error .noIdentity, [], false, pfs⟩ ∧
    pfs.Chmod ctx name now = ⟨.error .noIdentity, [], false, pfs⟩ ∧
    pfs.Chown ctx name now = ⟨.error .noIdentity, [], false, pfs⟩ ∧
    pfs.Chtimes ctx name now = ⟨.error .noIdentity, [], false, pfs⟩ := by
  have hcp : ∀ (p : String) (op : Nat),
      pfs.checkPermission ctx p op now = ⟨.error .noIdentity, [], pfs⟩ := by
    intro p op
    unfold PermFS.checkPermission GetIdentity
    rw [h]
  refine ⟨?g1, ?g2, ?g3, ?g4, ?g5, ?g6, ?g7, ?g8, ?g9, ?g10, ?g11, ?g12⟩
  · unfold PermFS.OpenFile
    dsimp only
    rw [hcp]
  · unfold PermFS.Mkdir
    rw [hcp]
  · unfold PermFS.MkdirAll
    rw [hcp]
  · unfold PermFS.Remove
    rw [hcp]
  · unfold PermFS.RemoveAll
    rw [hcp]
  · unfold PermFS.Rename
    rw [hcp]
  · unfold PermFS.Stat
    rw [hcp]
  · unfold PermFS.Lstat
    rw [hcp]
  · unfold PermFS.ReadDir
    rw [hcp]
  · unfold PermFS.Chmod
    rw [hcp]
  · unfold PermFS.Chown
    rw [hcp]
  · unfold PermFS.Chtimes
    rw [hcp]

/-- Witness for C7 at a concrete kernel and identity-free context. -/
theorem no_identity_short_circuits_witness :
    ((⟨⟨⟨[], Effect.deny⟩, none⟩, ⟨AuditLevel.all, ⟨0, 0, 0, 0, 0⟩, []⟩⟩ :
        PermFS).OpenFile ⟨none, "", []⟩ "/f" 0 5).result = .error .noIdentity ∧
    ((⟨⟨⟨[], Effect.deny⟩, none⟩, ⟨AuditLevel.all, ⟨0, 0, 0, 0, 0⟩, []⟩⟩ :
        PermFS).OpenFile ⟨none, "", []⟩ "/f" 0 5).backendCalled = false := by
  have hth := no_identity_short_circuits
    ⟨⟨⟨[], Effect.deny⟩, none⟩, ⟨AuditLevel.all, ⟨0, 0, 0, 0, 0⟩, []⟩⟩
    ⟨none, "", []⟩ rfl "/f" "" "" 0 5
  rw [hth.1]
  exact ⟨rfl, rfl⟩

/-! ## Bit lemmas for the operation mapper -/

theorem land_two_pow_ne_iff (f i : Nat) :
    f &&& 2 ^ i ≠ 0 ↔ f.testBit i = true := by
  rw [Nat.and_two_pow]
  rcases h : f.testBit i with _ | _ <;> simp

theorem land_mask_zero_bit {f m : Nat} (h : f &&& m = 0) {i : Nat}
    (hm : m.testBit i = true) : f.testBit i = false := by
  have h2 := congrArg (fun x => Nat.testBit x i) h
  simp only [Nat.testBit_land, Nat.zero_testBit, hm, Bool.and_true] at h2
  exact h2

theorem testBit_false_of_ge {m k : Nat} (hlt : m < 2 ^ k) {i : Nat}
    (hge : k ≤ i) : m.testBit i = false :=
  Nat.testBit_lt_two_pow (lt_of_lt_of_le hlt (Nat.pow_le_pow_right (by norm_num) hge))

theorem land_1603_iff (f : Nat) :
    f &&& 1603 ≠ 0 ↔ (f.testBit 0 = true ∨ f.testBit 1 = true ∨ f.testBit 6 = true ∨
      f.testBit 9 = true ∨ f.testBit 10 = true) := by
  constructor
  · intro h
    by_contra hall
    push_neg at hall
    apply h
    apply Nat.eq_of_testBit_eq
    intro i
    rw [Nat.testBit_land, Nat.zero_testBit]
    match i with
    | 0 => simp [Bool.eq_false_iff.mpr hall.1]
    | 1 => simp [Bool.eq_false_iff.mpr hall.2.1]
    | 2 => simp [show Nat.testBit 1603 2 = false by decide]
    | 3 => simp [show Nat.testBit 1603 3 = false by decide]
    | 4 => simp [show Nat.testBit 1603 4 = false by decide]
    | 5 => simp [show Nat.testBit 1603 5 = false by decide]
    | 6 => simp [Bool.eq_false_iff.mpr hall.2.2.1]
    | 7 => simp [show Nat.testBit 1603 7 = false by decide]
    | 8 => simp [show Nat.testBit 1603 8 = false by decide]
    | 9 => simp [Bool.eq_false_iff.mpr hall.2.2.2.1]
    | 10 => simp [Bool.eq_false_iff.mpr hall.2.2.2.2]
    | (n + 11) =>
      simp [testBit_false_of_ge (show (1603 : Nat) < 2 ^ 11 by norm_num)
        (show 11 ≤ n + 11 by omega)]
  · intro h hzero
    rcases h with h | h | h | h | h
    · rw [land_mask_zero_bit hzero (show Nat.testBit 1603 0 = true by decide)] at h
      cases h
    · rw [land_mask_zero_bit hzero (show Nat.testBit 1603 1 = true by decide)] at h
      cases h
    · rw [land_mask_zero_bit hzero (show Nat.testBit 1603 6 = true by decide)] at h
      cases h
    · rw [land_mask_zero_bit hzero (show Nat.testBit 1603 9 = true by decide)] at h
      cases h
    · rw [land_mask_zero_bit hzero (show Nat.testBit 1603 10 = true by decide)] at h
      cases h

theorem write_mask_iff (flag : Nat) :
    flag &&& (O_WRONLY ||| O_RDWR ||| O_APPEND ||| O_CREATE ||| O_TRUNC) ≠ 0 ↔
    (flag &&& O_WRONLY ≠ 0 ∨ flag &&& O_RDWR ≠ 0 ∨ flag &&& O_APPEND ≠ 0 ∨
     flag &&& O_CREATE ≠ 0 ∨ flag &&& O_TRUNC ≠ 0) := by
  have hm : (O_WRONLY ||| O_RDWR ||| O_APPEND ||| O_CREATE ||| O_TRUNC : Nat) = 1603 := by
    decide
  have h0 : (O_WRONLY : Nat) = 2 ^ 0 := by decide
  have h1 : (O_RDWR : Nat) = 2 ^ 1 := by decide
  have h6 : (O_CREATE : Nat) = 2 ^ 6 := by decide
  have h9 : (O_TRUNC : Nat) = 2 ^ 9 := by decide
  have h10 : (O_APPEND : Nat) = 2 ^ 10 := by decide
  rw [hm, land_1603_iff, h0, h1, h6, h9, h10,
    land_two_pow_ne_iff, land_two_pow_ne_iff, land_two_pow_ne_iff,
    land_two_pow_ne_iff, land_two_pow_ne_iff]
  tauto

theorem opHas_two_pow (p i : Nat) : opHas p (2 ^ i) = p.testBit i := by
  unfold opHas
  rw [Nat.and_two_pow]
  rcases h : p.testBit i with _ | _ <;> simp
  exact (Nat.two_pow_pos i).ne

theorem opHas_three (p : Nat) : opHas p 3 = (p.testBit 0 && p.testBit 1) := by
  have hiff : p &&& 3 = 3 ↔ (p.testBit 0 = true ∧ p.testBit 1 = true) := by
    constructor
    · intro h
      constructor
      · have h2 := congrArg (fun x => Nat.testBit x 0) h
        simp only [Nat.testBit_land] at h2
        simpa [show Nat.testBit 3 0 = true by decide] using h2
      · have h2 := congrArg (fun x => Nat.testBit x 1) h
        simp only [Nat.testBit_land] at h2
        simpa [show Nat.testBit 3 1 = true by decide] using h2
    · rintro ⟨h0, h1⟩
      apply Nat.eq_of_testBit_eq
      intro i
      rw [Nat.testBit_land]
      match i with
      | 0 => simp [h0]
      | 1 => simp [h1]
      | (n + 2) =>
        simp [testBit_false_of_ge (show (3 : Nat) < 2 ^ 2 by norm_num)
          (show 2 ≤ n + 2 by omega)]
  unfold opHas
  rcases h : ((p &&& 3 : Nat) == 3) with _ | _
  · rw [beq_eq_false_iff_ne] at h
    rcases hb0 : p.testBit 0 with _ | _
    · simp
    · rcases hb1 : p.testBit 1 with _ | _
      · simp
      · exact absurd (hiff.mpr ⟨hb0, hb1⟩) h
  · rw [beq_iff_eq] at h
    rcases hiff.mp h with ⟨h0, h1⟩
    rw [h0, h1]
    rfl

/-- The value of openFileRequiredOp: Read|Write when writing with read
access, Write alone for write-only flags, Read alone otherwise. -/
theorem openFileRequiredOp_val (flag : Nat) :
    openFileRequiredOp flag =
      if flag &&& (O_WRONLY ||| O_RDWR ||| O_APPEND ||| O_CREATE ||| O_TRUNC) != 0 then
        (if flag &&& O_WRONLY == 0 then 3 else 2)
      else 1 := by
  have hmask : (O_WRONLY ||| O_RDWR ||| O_APPEND ||| O_CREATE ||| O_TRUNC : Nat) = 1603 := by
    decide
  have himp1 : flag &&& (O_WRONLY ||| O_RDWR ||| O_APPEND ||| O_CREATE ||| O_TRUNC) = 0 →
      flag &&& O_CREATE = 0 := by
    rw [hmask]
    intro h
    rw [show (O_CREATE : Nat) = 2 ^ 6 by decide, Nat.and_two_pow,
      land_mask_zero_bit h (show Nat.testBit 1603 6 = true by decide)]
    rfl
  have himp2 : flag &&& (O_WRONLY ||| O_RDWR ||| O_APPEND ||| O_CREATE ||| O_TRUNC) = 0 →
      flag &&& O_WRONLY = 0 := by
    rw [hmask]
    intro h
    rw [show (O_WRONLY : Nat) = 2 ^ 0 by decide, Nat.and_two_pow,
      land_mask_zero_bit h (show Nat.testBit 1603 0 = true by decide)]
    rfl
  unfold openFileRequiredOp
  dsimp only
  by_cases hb1 : (flag &&& (O_WRONLY ||| O_RDWR ||| O_APPEND ||| O_CREATE ||| O_TRUNC)
      != 0) = true
  · rw [if_pos hb1, if_pos hb1]
    by_cases hb2 : ((flag &&& O_WRONLY : Nat) == 0) = true
    · rw [if_pos hb2, if_pos hb2]
      by_cases hb3 : ((flag &&& O_CREATE : Nat) != 0) = true
      · rw [if_pos hb3]
        decide
      · rw [if_neg hb3]
        decide
    · rw [if_neg hb2, if_neg hb2]
      by_cases hb3 : ((flag &&& O_CREATE : Nat) != 0) = true
      · rw [if_pos hb3]
        decide
      · rw [if_neg hb3]
        decide
  · rw [if_neg hb1, if_neg hb1]
    simp only [bne_iff_ne, ne_eq, not_not] at hb1
    have h2 : ((flag &&& O_WRONLY : Nat) == 0) = true := by
      rw [beq_iff_eq]
      exact himp2 hb1
    have h3 : ¬((flag &&& O_CREATE : Nat) != 0) = true := by
      simp only [bne_iff_ne, ne_eq, not_not]
      exact himp1 hb1
    rw [if_pos h2, if_neg h3]
    decide

theorem opHas_one (p : Nat) : opHas p 1 = p.testBit 0 := by
  have h := opHas_two_pow p 0
  simpa using h

theorem opHas_two (p : Nat) : opHas p 2 = p.testBit 1 := by
  have h := opHas_two_pow p 1
  simpa using h

theorem checkPermission_evals (pfs : PermFS) (ctx : RequestContext) (ident : Identity)
    (h : ctx.identity = some ident) (p : String) (op now : Nat) :
    (pfs.checkPermission ctx p op now).evals = [(p, op)] := by
  unfold PermFS.checkPermission GetIdentity
  rw [h]
  dsimp only
  split
  · rfl
  · split <;> rfl

theorem openFile_evals (pfs : PermFS) (ctx : RequestContext) (name : String)
    (flag now : Nat) :
    (pfs.OpenFile ctx name flag now).evals =
      (pfs.checkPermission ctx name (openFileRequiredOp flag) now).evals := by
  unfold PermFS.OpenFile
  dsimp only
  rcases hres : pfs.checkPermission ctx name (openFileRequiredOp flag) now
    with ⟨res, evs, pfs'⟩
  rcases res with e | u <;> rfl

/-- Claim C4: OpenFile's single combined required operation contains Write
exactly when the flags include one of write-only, read-write, append,
create or truncate, contains Read exactly when the flags exclude
write-only; the operation performs exactly one permission evaluation with
that combined operation; and an entry applies to it exactly when its
permission set covers every operation of the combined set. -/
theorem openFile_single_combined_check (flag : Nat) :
    (opHas (openFileRequiredOp flag) OperationWrite = true ↔
      (flag &&& O_WRONLY ≠ 0 ∨ flag &&& O_RDWR ≠ 0 ∨ flag &&& O_APPEND ≠ 0 ∨
       flag &&& O_CREATE ≠ 0 ∨ flag &&& O_TRUNC ≠ 0)) ∧
    (opHas (openFileRequiredOp flag) OperationRead = true ↔ flag &&& O_WRONLY = 0) ∧
    (∀ (pfs : PermFS) (ctx : RequestContext) (ident : Identity) (name : String)
        (now : Nat), ctx.identity = some ident →
      (pfs.OpenFile ctx name flag now).evals = [(name, openFileRequiredOp flag)]) ∧
    (∀ e : ACLEntry, e.Applies (openFileRequiredOp flag) = true ↔
      ((opHas (openFileRequiredOp flag) OperationRead = true →
          opHas e.permissions OperationRead = true) ∧
       (opHas (openFileRequiredOp flag) OperationWrite = true →
          opHas e.permissions OperationWrite = true))) := by
  have hval := openFileRequiredOp_val flag
  have hrw : ∀ p : Nat, opHas p OperationRead = p.testBit 0 := fun p => opHas_one p
  have hww : ∀ p : Nat, opHas p OperationWrite = p.testBit 1 := fun p => opHas_two p
  refine ⟨?w, ?r, ?ev, ?ap⟩
  case ev =>
    intro pfs ctx ident name now h
    rw [openFile_evals, checkPermission_evals pfs ctx ident h]
  case w =>
    rw [hval]
    by_cases hb1 : (flag &&& (O_WRONLY ||| O_RDWR ||| O_APPEND ||| O_CREATE ||| O_TRUNC)
        != 0) = true
    · rw [if_pos hb1]
      have hmask : flag &&& (O_WRONLY ||| O_RDWR ||| O_APPEND ||| O_CREATE ||| O_TRUNC)
          ≠ 0 := by rwa [bne_iff_ne] at hb1
      constructor
      · intro _
        exact (write_mask_iff flag).mp hmask
      · intro _
        by_cases hb2 : ((flag &&& O_WRONLY : Nat) == 0) = true
        · rw [if_pos hb2]; decide
        · rw [if_neg hb2]; decide
    · rw [if_neg hb1]
      simp only [bne_iff_ne, ne_eq, not_not] at hb1
      constructor
      · intro hfalse
        exact absurd hfalse (by decide)
      · intro hr
        exact absurd hb1 ((write_mask_iff flag).mpr hr)
  case r =>
    rw [hval]
    by_cases hb1 : (flag &&& (O_WRONLY ||| O_RDWR ||| O_APPEND ||| O_CREATE ||| O_TRUNC)
        != 0) = true
    · rw [if_pos hb1]
      by_cases hb2 : ((flag &&& O_WRONLY : Nat) == 0) = true
      · rw [if_pos hb2]
        rw [beq_iff_eq] at hb2
        constructor
        · intro _; exact hb2
        · intro _; decide
      · rw [if_neg hb2]
        rw [beq_iff_eq] at hb2
        constructor
        · intro hfalse; exact absurd hfalse (by decide)
        · intro h0; exact absurd h0 hb2
    · rw [if_neg hb1]
      simp only [bne_iff_ne, ne_eq, not_not] at hb1
      have h2 : flag &&& O_WRONLY = 0 := by
        rw [show (O_WRONLY : Nat) = 2 ^ 0 by decide, Nat.and_two_pow,
          land_mask_zero_bit (by rwa [show (O_WRONLY ||| O_RDWR ||| O_APPEND |||
            O_CREATE ||| O_TRUNC : Nat) = 1603 from by decide] at hb1)
            (show Nat.testBit 1603 0 = true by decide)]
        rfl
      constructor
      · intro _; exact h2
      · intro _; decide
  case ap =>
    intro e
    rw [hval]
    unfold ACLEntry.Applies
    by_cases hb1 : (flag &&& (O_WRONLY ||| O_RDWR ||| O_APPEND ||| O_CREATE ||| O_TRUNC)
        != 0) = true
    · rw [if_pos hb1]
      by_cases hb2 : ((flag &&& O_WRONLY : Nat) == 0) = true
      · rw [if_pos hb2]
        rw [show opHas 3 OperationRead = true from by decide,
          show opHas 3 OperationWrite = true from by decide,
          opHas_three, hrw e.permissions, hww e.permissions]
        constructor
        · intro hand
          rw [Bool.and_eq_true] at hand
          exact ⟨fun _ => hand.1, fun _ => hand.2⟩
        · rintro ⟨h0, h1⟩
          rw [Bool.and_eq_true]
          exact ⟨h0 rfl, h1 rfl⟩
      · rw [if_neg hb2]
        rw [show opHas 2 OperationRead = false from by decide,
          show opHas 2 OperationWrite = true from by decide,
          show (2 : Nat) = OperationWrite from by decide, hww e.permissions]
        constructor
        · intro h1
          exact ⟨fun hfalse => absurd hfalse (by simp), fun _ => h1⟩
        · rintro ⟨_, h1⟩
          exact h1 rfl
    · rw [if_neg hb1]
      rw [show opHas 1 OperationRead = true from by decide,
        show opHas 1 OperationWrite = false from by decide,
        show (1 : Nat) = OperationRead from by decide, hrw e.permissions]
      constructor
      · intro h0
        exact ⟨fun _ => h0, fun hfalse => absurd hfalse (by simp)⟩
      · rintro ⟨h0, _⟩
        exact h0 rfl

/-- Witness for C4 at flag O_RDWR|O_CREATE with a concrete kernel and
identity-carrying context. -/
theorem openFile_single_combined_check_witness :
    openFileRequiredOp 66 = 3 ∧
    ((⟨⟨⟨[], Effect.deny⟩, none⟩, ⟨AuditLevel.none, ⟨0, 0, 0, 0, 0⟩, []⟩⟩ :
        PermFS).OpenFile ⟨some ⟨"alice", [], [], []⟩, "", []⟩ "/f" 66 5).evals =
      [("/f", openFileRequiredOp 66)] := by
  constructor
  · decide
  · exact (openFile_single_combined_check 66).2.2.1
      ⟨⟨⟨[], Effect.deny⟩, none⟩, ⟨AuditLevel.none, ⟨0, 0, 0, 0, 0⟩, []⟩⟩
      ⟨some ⟨"alice", [], [], []⟩, "", []⟩ ⟨"alice", [], [], []⟩ "/f" 5 rfl

/-! ## Double-star semantics -/

/-- A literal glob character: no star, question mark, class bracket or
escape. -/
def litChar (c : Char) : Bool :=
  !(c == '*') && !(c == '?') && !(c == '[') && !(c == '\\')

theorem litChar_props {c : Char} (h : litChar c = true) :
    ¬c = '*' ∧ ¬c = '?' ∧ ¬c = '[' ∧ ¬c = '\\' := by
  unfold litChar at h
  simp only [Bool.and_eq_true, Bool.not_eq_true', beq_eq_false_iff_ne, ne_eq] at h
  exact ⟨h.1.1.1, h.1.1.2, h.1.2, h.2⟩

theorem scanBody_lit {l : List Char} (h : l.all litChar = true) :
    scanBody false l = (l, []) := by
  induction l with
  | nil => rfl
  | cons c r ih =>
    rw [List.all_cons, Bool.and_eq_true] at h
    rcases litChar_props h.1 with ⟨h1, h2, h3, h4⟩
    rw [scanBody.eq_def]
    by_cases h5 : c = ']'
    · simp [h5, ih h.2]
    · simp [h1, h3, h4, h5, ih h.2]

theorem stripStars_lit {l : List Char} (h : l.all litChar = true) :
    stripStars l = (false, l) := by
  cases l with
  | nil => rfl
  | cons c r =>
    rw [List.all_cons, Bool.and_eq_true] at h
    rcases litChar_props h.1 with ⟨h1, _, _, _⟩
    rw [stripStars]
    simp [h1]

theorem scanChunk_lit {l : List Char} (h : l.all litChar = true) :
    scanChunk l = (false, l, []) := by
  unfold scanChunk
  rw [stripStars_lit h]
  dsimp only
  rw [scanBody_lit h]

theorem matchChunk_lit_refl {l : List Char} (h : l.all litChar = true) :
    matchChunk l l false = .ok ([], true) := by
  induction l with
  | nil => rw [matchChunk_eq]; rfl
  | cons c ch ih =>
    rw [List.all_cons, Bool.and_eq_true] at h
    rcases litChar_props h.1 with ⟨h1, h2, h3, h4⟩
    rw [matchChunk_eq]
    dsimp only
    rw [if_neg (by simp [h3]), if_neg (by simp [h2]), if_neg (by simp [h4])]
    simp only [List.isEmpty_cons, Bool.or_false, List.tail_cons, List.headD_cons,
      beq_self_eq_true, Bool.not_true, Bool.false_or]
    rw [if_neg (by simp)]
    exact ih h.2

theorem goMatch_lit_refl {l : List Char} (h : l.all litChar = true) :
    goMatch l l = .ok true := by
  match l with
  | [] => rw [goMatch]; rfl
  | p :: pr =>
    rw [goMatch]
    have hsc := scanChunk_lit h
    rw [hsc]
    dsimp only
    rw [matchChunk_lit_refl h]
    dsimp only
    rw [if_neg (by simp)]
    rw [if_pos (by simp)]
    rw [goMatch]
    rfl

theorem segScan_msnil {qq : List (List Char)} (h : qq ≠ []) :
    segScan (fun l => matchSegments [] l) qq = .ok true := by
  induction qq with
  | nil => exact absurd rfl h
  | cons q rest ih =>
    cases rest with
    | nil => rfl
    | cons x xs =>
      have hstep : segScan (fun l => matchSegments [] l) (q :: x :: xs) =
          segScan (fun l => matchSegments [] l) (x :: xs) := rfl
      rw [hstep]
      exact ih (by simp)

theorem matchSegments_dstar_last (qq : List (List Char)) :
    matchSegments [doubleStar] qq = .ok true := by
  cases qq with
  | nil => rfl
  | cons q qq' =>
    have hstep : matchSegments [doubleStar] (q :: qq') =
        segScan (fun l => matchSegments [] l) (q :: qq') := rfl
    rw [hstep]
    exact segScan_msnil (by simp)

theorem litSeg_ne_dstar {s : List Char} (h : s.all litChar = true) :
    (s == doubleStar) = false := by
  rcases hb : (s == doubleStar) with _ | _
  · rfl
  · rw [beq_iff_eq] at hb
    rw [hb] at h
    simp [doubleStar, litChar] at h

theorem matchSegments_append_dstar (p : List (List Char))
    (hlit : ∀ s ∈ p, s.all litChar = true) :
    matchSegments (p ++ [doubleStar]) p = .ok true ∧
    ∀ extra, extra ≠ [] →
      matchSegments (p ++ [doubleStar]) (p ++ extra) = .ok true := by
  induction p with
  | nil =>
    exact ⟨matchSegments_dstar_last [], fun extra _ => matchSegments_dstar_last extra⟩
  | cons s p' ih =>
    have hs := hlit s (by simp)
    have hlit' : ∀ t ∈ p', t.all litChar = true := fun t ht => hlit t (by simp [ht])
    rcases ih hlit' with ⟨ihA, ihB⟩
    have hne := litSeg_ne_dstar hs
    have hgm := goMatch_lit_refl hs
    constructor
    · rw [List.cons_append, matchSegments.eq_def]
      dsimp only
      rw [if_neg (by simp [hne])]
      rw [hgm]
      exact ihA
    · intro extra hnee
      rw [List.cons_append, List.cons_append, matchSegments.eq_def]
      dsimp only
      rw [if_neg (by simp [hne])]
      rw [hgm]
      exact ihB extra hnee

/-- Claim C6: a double-star pattern segment matches zero or more complete
path segments, including zero.  For every list of literal segments p, the
segment pattern p ++ [**] matches exactly p, and also matches p extended
by any non-empty list of further segments; concretely,
matchPattern "/a/**" "/a" and matchPattern "/a/**" "/a/b/c" both return
true (with no error). -/
theorem doublestar_matches_zero_or_more (p : List (List Char))
    (hlit : ∀ s ∈ p, s.all litChar = true) :
    (matchSegments (p ++ [doubleStar]) p = .ok true ∧
     ∀ extra : List (List Char), extra ≠ [] →
       matchSegments (p ++ [doubleStar]) (p ++ extra) = .ok true) ∧
    matchPattern "/a/**" "/a" = .ok true ∧
    matchPattern "/a/**" "/a/b/c" = .ok true := by
  refine ⟨matchSegments_append_dstar p hlit, ?_, ?_⟩
  · simp [matchPattern, pathClean, cleanLoop, popWhile, hasSubstring,
      doubleStar, matchDoubleStarPattern, splitSlash, matchSegments, segScan,
      goMatch, scanChunk, scanBody, stripStars, matchChunk_eq, matchRanges_eq,
      getEsc, validateRest, starTrials]
  · simp [matchPattern, pathClean, cleanLoop, popWhile, hasSubstring,
      doubleStar, matchDoubleStarPattern, splitSlash, matchSegments, segScan,
      goMatch, scanChunk, scanBody, stripStars, matchChunk_eq, matchRanges_eq,
      getEsc, validateRest, starTrials]

theorem doublestar_matches_zero_or_more_witness :
    (∀ s ∈ [([] : List Char), ['a']], s.all litChar = true) ∧
    matchSegments ([[], ['a']] ++ [doubleStar]) [[], ['a']] = .ok true ∧
    matchSegments ([[], ['a']] ++ [doubleStar]) ([[], ['a']] ++ [['b']]) = .ok true := by
  have hl : ∀ s ∈ [([] : List Char), ['a']], s.all litChar = true := by decide
  exact ⟨hl, (doublestar_matches_zero_or_more [[], ['a']] hl).1.1,
    (doublestar_matches_zero_or_more [[], ['a']] hl).1.2 [['b']] (by simp)⟩

/-! ## LRU behaviour of PermissionCache.Set -/

/-- Claim C8: on a cache at capacity (maxSize ≥ 1, exactly maxSize
entries), Set with an absent key evicts exactly one entry — the
least-recently-used (back of the MRU-ordered list) — before pushing the
new entry, leaving the size at maxSize; Set on a present key rewrites that
entry in place at the most-recently-used position, with no eviction and
unchanged size. -/
theorem cache_set_lru_eviction (pc : PermissionCache) (now : Nat) (key : CacheKey)
    (allowed : Bool) (hen : pc.enabled = true) (hmax : 1 ≤ pc.maxSize)
    (hcap : (pc.lru.length : Int) = pc.maxSize) :
    ((∀ e ∈ pc.lru, (e.key.keyString == key.keyString) = false) →
      pc.set now key allowed =
        { pc with lru := ⟨key, allowed, now + pc.ttl⟩ :: pc.lru.dropLast,
                  evictions := pc.evictions + 1 } ∧
      (pc.set now key allowed).lru.length = pc.lru.length) ∧
    (∀ entry, pc.lru.find? (fun e => e.key.keyString == key.keyString) = some entry →
      pc.set now key allowed =
        { pc with lru := { entry with allowed := allowed, expiresAt := now + pc.ttl } ::
            pc.lru.eraseP (fun e => e.key.keyString == key.keyString) } ∧
      (pc.set now key allowed).lru.length = pc.lru.length ∧
      (pc.set now key allowed).evictions = pc.evictions ∧
      entry.key.keyString = key.keyString) := by
  have hlen1 : 1 ≤ pc.lru.length := by
    have : (1 : Int) ≤ (pc.lru.length : Int) := hcap ▸ hmax
    exact_mod_cast this
  constructor
  · intro habsent
    have hnone : pc.lru.find? (fun e => e.key.keyString == key.keyString) = none :=
      List.find?_eq_none.mpr (fun e he => by rw [habsent e he]; exact Bool.false_ne_true)
    have hset : pc.set now key allowed =
        { pc with lru := ⟨key, allowed, now + pc.ttl⟩ :: pc.lru.dropLast,
                  evictions := pc.evictions + 1 } := by
      unfold PermissionCache.set
      simp only [hen, Bool.not_true]
      rw [if_neg Bool.false_ne_true]
      rw [hnone]
      dsimp only
      rw [if_pos (le_of_eq hcap.symm)]
      unfold PermissionCache.evictOldest
      have hemp : pc.lru.isEmpty = false := by
        cases hl : pc.lru with
        | nil => rw [hl] at hlen1; simp at hlen1
        | cons a b => rfl
      rw [if_neg (by rw [hemp]; exact Bool.false_ne_true)]
      dsimp only
      rw [hen]
    refine ⟨hset, ?_⟩
    rw [hset]
    simp only [List.length_cons, List.length_dropLast]
    omega
  · intro entry hfind
    have hmem : entry ∈ pc.lru := List.mem_of_find?_eq_some hfind
    have hpred : (entry.key.keyString == key.keyString) = true := by
      have h := List.find?_some hfind
      simpa using h
    have hset : pc.set now key allowed =
        { pc with lru := { entry with allowed := allowed, expiresAt := now + pc.ttl } ::
            pc.lru.eraseP (fun e => e.key.keyString == key.keyString) } := by
      unfold PermissionCache.set
      simp only [hen, Bool.not_true]
      rw [if_neg Bool.false_ne_true]
      rw [hfind]
    refine ⟨hset, ?_, ?_, eq_of_beq hpred⟩
    · rw [hset]
      simp only [List.length_cons]
      rw [List.length_eraseP_of_mem hmem hpred]
      omega
    · rw [hset]

def wKey1 : CacheKey := ⟨"u", "/a", 1⟩

def wKey2 : CacheKey := ⟨"u", "/b", 1⟩

def wKey3 : CacheKey := ⟨"u", "/c", 1⟩

def wEntry1 : CacheEntry := ⟨wKey1, true, 5⟩

def wCache : PermissionCache := ⟨2, 10, [wEntry1, ⟨wKey2, false, 5⟩], 0, 0, 0, true⟩

theorem cache_set_lru_eviction_witness :
    wCache.enabled = true ∧
    (wCache.set 7 wKey3 true =
      { wCache with lru := ⟨wKey3, true, 7 + wCache.ttl⟩ :: wCache.lru.dropLast,
                    evictions := wCache.evictions + 1 } ∧
     (wCache.set 7 wKey3 true).lru.length = wCache.lru.length) ∧
    (wCache.set 7 wKey1 false =
      { wCache with lru := { wEntry1 with allowed := false, expiresAt := 7 + wCache.ttl } ::
          wCache.lru.eraseP (fun e => e.key.keyString == wKey1.keyString) } ∧
     (wCache.set 7 wKey1 false).lru.length = wCache.lru.length ∧
     (wCache.set 7 wKey1 false).evictions = wCache.evictions ∧
     wEntry1.key.keyString = wKey1.keyString) :=
  ⟨rfl,
   (cache_set_lru_eviction wCache 7 wKey3 true rfl (by decide) (by decide)).1 (by decide),
   (cache_set_lru_eviction wCache 7 wKey1 false rfl (by decide) (by decide)).2 wEntry1
     (by decide)⟩
